import Mathlib

/-!
Verification of the `gopher-parse-sitemap` streaming sitemap parser.

The development shallowly embeds the repository's Go code:

* `sitemap_types.go` — record types (`sitemapEntry`, `Image`, `News`,
  `sitemapIndexEntry`), their accessors with lazy/memoized date parsing,
  the defaults installed by `newSitemapEntry`, and `parseDateTime` with
  its three candidate formats — is embedded directly, definition by
  definition.
* The decode loop (`parseLoop`) and the two record builders
  (`entryParser` / `indexEntryParser` via `xml.Decoder.DecodeElement`)
  are not among the provided source files (only their callers `Parse`,
  `ParseIndex` and the file/site wrappers are).  They are modelled from
  the specification (sections 4.2 to 4.4): a forward-only token stream,
  a loop that finds record-start elements and a recursive-descent
  builder that consumes exactly one element subtree.
* The retrieval adapter `get` and the four convenience wrappers are in
  the provided sources and are embedded with an explicit release count
  standing for Go's `defer Close()`.

Go `time.Time` values are represented by their parsed calendar
components plus a UTC offset in minutes; Go `float32` priorities are
represented by exact rationals.
-/

/-! ## XML token stream

An XML document, as seen through Go's `encoding/xml` tokenizer, is a
forward-only sequence of lexical events.  A stream is a list of tokens
together with a flag telling whether the tokenizer fails (malformed
XML) after the listed tokens; `truncated = false` means the document
ends cleanly at end of stream. -/

/-- One XML lexical event: element start, element end, or character data.
Attributes are ignored by the whole code base and are not modelled. -/
inductive Token where
  | st (name : String) : Token
  | en (name : String) : Token
  | txt (s : String) : Token
deriving DecidableEq, Repr

/-! ## Calendar timestamps -/

/-- A parsed timestamp, standing for the Go `time.Time` produced by
`time.Parse`: calendar components plus the zone offset (minutes east of
UTC) taken from the input string.  An offset of `0` corresponds to
`Z`/UTC, which is also what `time.Parse` yields for layouts without a
zone part. -/
structure GoTime where
  year : Nat
  month : Nat
  day : Nat
  hour : Nat
  minute : Nat
  second : Nat
  offset : Int
deriving DecidableEq, Repr

/-! ## Record types (from `sitemap_types.go`) -/

/-- Frequency is a type alias for change frequency (Go: `type Frequency = string`). -/
abbrev Frequency := String

/-- Go constant `Always = "always"`. -/
def Always : Frequency := "always"

/-- Go constant `Hourly = "hourly"`. -/
def Hourly : Frequency := "hourly"

/-- Go constant `Daily = "daily"`. -/
def Daily : Frequency := "daily"

/-- Go constant `Weekly = "weekly"`. -/
def Weekly : Frequency := "weekly"

/-- Go constant `Monthly = "monthly"`. -/
def Monthly : Frequency := "monthly"

/-- Go constant `Yearly = "yearly"`. -/
def Yearly : Frequency := "yearly"

/-- Go constant `Never = "never"`. -/
def Never : Frequency := "never"

/-- Go struct `Image` (fields `ImageLocation`, `ImageTitle`). -/
structure Image where
  ImageLocation : String
  ImageTitle : String
deriving DecidableEq, Repr

/-- The anonymous `Publication` struct nested inside Go's `News`. -/
structure Publication where
  Name : String
  Language : String
deriving DecidableEq, Repr

/-- Go struct `News`: publication data plus the raw publication date
string and its lazily parsed, cached timestamp. -/
structure News where
  Publication : Publication
  PublicationDate : String
  ParsedPublicationDate : Option GoTime
  Title : String
  Keywords : String
deriving DecidableEq, Repr

/-- Go struct `sitemapEntry`: one `url` record.  `ParsedLastModified`
caches the lazily parsed form of the raw `LastModified` string.
`Priority` is Go `float32`, modelled as an exact rational. -/
structure sitemapEntry where
  Location : String
  LastModified : String
  ParsedLastModified : Option GoTime
  ChangeFrequency : Frequency
  Priority : Rat
  Images : List Image
  News : Option News
deriving DecidableEq, Repr

/-- Go struct `sitemapIndexEntry`: one `sitemap` record of an index file. -/
structure sitemapIndexEntry where
  Location : String
  LastModified : String
  ParsedLastModified : Option GoTime
deriving DecidableEq, Repr

/-- Go `newSitemapEntry()`: fresh record with defaults
`ChangeFrequency = Always` and `Priority = 0.5`; the remaining fields
take Go's zero values. -/
def newSitemapEntry : sitemapEntry :=
  { Location := ""
    LastModified := ""
    ParsedLastModified := none
    ChangeFrequency := Always
    Priority := 1/2
    Images := []
    News := none }

/-- Go `newSitemapIndexEntry()`: zero-valued record. -/
def newSitemapIndexEntry : sitemapIndexEntry :=
  { Location := "", LastModified := "", ParsedLastModified := none }

/-! ## Date parsing (`parseDateTime` and the three layouts)

`parseDateTime` calls Go `time.Parse` on three layouts in order:
`time.RFC3339` (`"2006-01-02T15:04:05Z07:00"`), then
`"2006-01-02T15:04-07:00"`, then `"2006-01-02"`.  `time.Parse` itself
is Go standard-library code (an external collaborator per the spec);
the three layouts are modelled here character by character: fixed-width
decimal fields, literal separators, calendar range validation, and a
numeric zone (`Z` permitted only where the layout contains `Z`).
Fractional seconds are not modelled (no claim concerns them). -/

/-- Decimal value of a digit character, `none` on a non-digit. -/
def charDigit (c : Char) : Option Nat :=
  if c.isDigit then some (c.toNat - 48) else none

/-- Read exactly `k` digit characters, most significant first,
accumulating onto `acc`. -/
def readFixed : Nat → Nat → List Char → Option (Nat × List Char)
  | 0, acc, cs => some (acc, cs)
  | _ + 1, _, [] => none
  | k + 1, acc, c :: cs =>
    match charDigit c with
    | some d => readFixed k (acc * 10 + d) cs
    | none => none

/-- Consume one expected literal character. -/
def expectCh (c : Char) : List Char → Option (List Char)
  | [] => none
  | x :: xs => if x = c then some xs else none

/-- Gregorian leap-year rule. -/
def isLeap (y : Nat) : Bool :=
  y % 4 = 0 && (y % 100 ≠ 0 || y % 400 = 0)

/-- Number of days in a month. -/
def daysIn (y m : Nat) : Nat :=
  if m = 2 then (if isLeap y then 29 else 28)
  else if m = 4 ∨ m = 6 ∨ m = 9 ∨ m = 11 then 30
  else 31

/-- Read the date part `YYYY-MM-DD` with calendar validation. -/
def readDate (cs : List Char) : Option ((Nat × Nat × Nat) × List Char) := do
  let (y, cs) ← readFixed 4 0 cs
  let cs ← expectCh '-' cs
  let (mo, cs) ← readFixed 2 0 cs
  let cs ← expectCh '-' cs
  let (d, cs) ← readFixed 2 0 cs
  if 1 ≤ mo ∧ mo ≤ 12 ∧ 1 ≤ d ∧ d ≤ daysIn y mo then
    some ((y, mo, d), cs)
  else
    none

/-- Read `HH:MM` with range validation. -/
def readHM (cs : List Char) : Option ((Nat × Nat) × List Char) := do
  let (h, cs) ← readFixed 2 0 cs
  let cs ← expectCh ':' cs
  let (mi, cs) ← readFixed 2 0 cs
  if h ≤ 23 ∧ mi ≤ 59 then some ((h, mi), cs) else none

/-- Read `:SS` with range validation. -/
def readSec (cs : List Char) : Option (Nat × List Char) := do
  let cs ← expectCh ':' cs
  let (s, cs) ← readFixed 2 0 cs
  if s ≤ 59 then some (s, cs) else none

/-- Read a zone: `Z` (only when `allowZ`, as in layout `Z07:00`) or a
signed `±HH:MM` offset, returned in minutes east of UTC. -/
def readZone (allowZ : Bool) : List Char → Option (Int × List Char)
  | [] => none
  | c :: cs =>
    if c = 'Z' then
      if allowZ then some ((0 : Int), cs) else none
    else if c = '+' ∨ c = '-' then
      (do
        let (h, cs') ← readFixed 2 0 cs
        let cs' ← expectCh ':' cs'
        let (mi, cs') ← readFixed 2 0 cs'
        let total : Int := (h * 60 + mi : Nat)
        some (if c = '-' then -total else total, cs'))
    else none

/-- Go `time.Parse(time.RFC3339, s)` on layout
`"2006-01-02T15:04:05Z07:00"`: full date, literal `T`, `HH:MM:SS`, zone
with `Z` permitted, whole string consumed. -/
def parseRFC3339 (s : String) : Option GoTime := do
  let (ymd, cs) ← readDate s.data
  let cs ← expectCh 'T' cs
  let (hm, cs) ← readHM cs
  let (sec, cs) ← readSec cs
  let (off, cs) ← readZone true cs
  if cs = [] then
    some ⟨ymd.1, ymd.2.1, ymd.2.2, hm.1, hm.2, sec, off⟩
  else none

/-- Go `time.Parse("2006-01-02T15:04-07:00", s)`: date, literal `T`,
`HH:MM`, numeric zone (no `Z`), whole string consumed, seconds zero. -/
def parseNoSecFormat (s : String) : Option GoTime := do
  let (ymd, cs) ← readDate s.data
  let cs ← expectCh 'T' cs
  let (hm, cs) ← readHM cs
  let (off, cs) ← readZone false cs
  if cs = [] then
    some ⟨ymd.1, ymd.2.1, ymd.2.2, hm.1, hm.2, 0, off⟩
  else none

/-- Go `time.Parse("2006-01-02", s)`: date only, whole string consumed,
interpreted at midnight with zero offset (UTC). -/
def parseShortDate (s : String) : Option GoTime := do
  let (ymd, cs) ← readDate s.data
  if cs = [] then
    some ⟨ymd.1, ymd.2.1, ymd.2.2, 0, 0, 0, 0⟩
  else none

/-- Go `parseDateTime` (sitemap_types.go): empty string yields `nil`
immediately; otherwise the three layouts are tried in order and the
first success wins; if all fail the result is `nil`, never an error. -/
def parseDateTime (value : String) : Option GoTime :=
  if value = "" then none
  else
    match parseRFC3339 value with
    | some t => some t
    | none =>
      match parseNoSecFormat value with
      | some t => some t
      | none => parseShortDate value

/-! ## Accessors (from `sitemap_types.go`)

Go accessors mutate the record through a pointer receiver when they
memoize; here each memoizing accessor returns the value together with
the updated record. -/

/-- Go `(*sitemapEntry).GetLocation`. -/
def sitemapEntry.GetLocation (e : sitemapEntry) : String :=
  e.Location

/-- Go `(*sitemapEntry).GetImages`. -/
def sitemapEntry.GetImages (e : sitemapEntry) : List Image :=
  e.Images

/-- Go `(*sitemapEntry).GetLastModified`: when the cache is empty and
the raw string non-empty, parse and store; then return the cache field. -/
def sitemapEntry.GetLastModified (e : sitemapEntry) : Option GoTime × sitemapEntry :=
  if e.ParsedLastModified = none ∧ e.LastModified ≠ "" then
    let e' := { e with ParsedLastModified := parseDateTime e.LastModified }
    (e'.ParsedLastModified, e')
  else
    (e.ParsedLastModified, e)

/-- Go `(*sitemapEntry).GetChangeFrequency`. -/
def sitemapEntry.GetChangeFrequency (e : sitemapEntry) : Frequency :=
  e.ChangeFrequency

/-- Go `(*sitemapEntry).GetPriority`. -/
def sitemapEntry.GetPriority (e : sitemapEntry) : Rat :=
  e.Priority

/-- Go `(*sitemapEntry).GetNews` (result type `Option News` is inferred;
inside the `sitemapEntry` namespace the bare name `News` would resolve
to the field projection). -/
def sitemapEntry.GetNews (e : sitemapEntry) :=
  e.News

/-- Go `(*News).GetPublicationDate`: same memoizing pattern as
`GetLastModified`. -/
def News.GetPublicationDate (n : News) : Option GoTime × News :=
  if n.ParsedPublicationDate = none ∧ n.PublicationDate ≠ "" then
    let n' := { n with ParsedPublicationDate := parseDateTime n.PublicationDate }
    (n'.ParsedPublicationDate, n')
  else
    (n.ParsedPublicationDate, n)

/-- Go `(*sitemapIndexEntry).GetLocation`. -/
def sitemapIndexEntry.GetLocation (e : sitemapIndexEntry) : String :=
  e.Location

/-- Go `(*sitemapIndexEntry).GetLastModified`: same memoizing pattern. -/
def sitemapIndexEntry.GetLastModified (e : sitemapIndexEntry) :
    Option GoTime × sitemapIndexEntry :=
  if e.ParsedLastModified = none ∧ e.LastModified ≠ "" then
    let e' := { e with ParsedLastModified := parseDateTime e.LastModified }
    (e'.ParsedLastModified, e')
  else
    (e.ParsedLastModified, e)

/-! ## Priority strings

`encoding/xml` fills the `float32` priority field via
`strconv.ParseFloat` (Go standard library, external collaborator).  The
plain decimal subset that sitemap priorities use is modelled exactly:
optional sign, an integer part, an optional fractional part. -/

/-- Greedily read decimal digits: value, number of digits read, rest. -/
def readDigits : List Char → Nat → Nat → Nat × Nat × List Char
  | [], acc, k => (acc, k, [])
  | c :: cs, acc, k =>
    match charDigit c with
    | some d => readDigits cs (acc * 10 + d) (k + 1)
    | none => (acc, k, c :: cs)

/-- Modelled from the spec: the decimal-string-to-number conversion used
for the `priority` field (Go `strconv.ParseFloat` restricted to plain
sign/integer/fraction decimals), producing an exact rational. -/
def parsePriority (s : String) : Option Rat :=
  let sign : Rat × List Char :=
    match s.data with
    | '-' :: r => (-1, r)
    | '+' :: r => (1, r)
    | r => (1, r)
  let ip := readDigits sign.2 0 0
  if ip.2.1 = 0 then none
  else
    match ip.2.2 with
    | [] => some (sign.1 * ip.1)
    | '.' :: r =>
      let fp := readDigits r 0 0
      if fp.2.1 = 0 ∨ fp.2.2 ≠ [] then none
      else some (sign.1 * ((ip.1 : Rat) + (fp.1 : Rat) / ((10 : Rat) ^ fp.2.1)))
    | _ => none

/-! ## Record builders

The decode loop and the element builders are not among the provided
source files; everything from here to `ParseIndex` is modelled from the
spec (sections 4.2 to 4.4). -/

/-- Modelled from the spec: drain one element subtree.  The stream is
positioned just after a start token; `d` counts additionally opened
elements.  Returns the suffix after the matching end token, or `none`
when the stream is exhausted first (structural failure). -/
def drain : List Token → Nat → Option (List Token)
  | [], _ => none
  | Token.st _ :: rest, d => drain rest (d + 1)
  | Token.en _ :: rest, 0 => some rest
  | Token.en _ :: rest, d + 1 => drain rest d
  | Token.txt _ :: rest, d => drain rest d

theorem drain_length : ∀ (ts : List Token) (d : Nat) (r : List Token),
    drain ts d = some r → r.length < ts.length := by
  intro ts
  induction ts with
  | nil => intro d r h; simp [drain] at h
  | cons t rest ih =>
    intro d r h
    cases t with
    | st name =>
      have := ih (d + 1) r (by simpa [drain] using h)
      simp only [List.length_cons]
      omega
    | en name =>
      cases d with
      | zero =>
        simp only [drain, Option.some.injEq] at h
        subst h
        simp
      | succ d =>
        have := ih d r (by simpa [drain] using h)
        simp only [List.length_cons]
        omega
    | txt s =>
      have := ih d r (by simpa [drain] using h)
      simp only [List.length_cons]
      omega

/-- Modelled from the spec: read the character data of one element
subtree (the stream is positioned just after its start token),
accumulating text at depth zero and discarding nested elements, exactly
as `encoding/xml` fills a string-typed field.  Returns the text and the
suffix after the matching end token. -/
def readText : List Token → Nat → String → Option (String × List Token)
  | [], _, _ => none
  | Token.st _ :: rest, d, acc => readText rest (d + 1) acc
  | Token.en _ :: rest, 0, acc => some (acc, rest)
  | Token.en _ :: rest, d + 1, acc => readText rest d acc
  | Token.txt s :: rest, 0, acc => readText rest 0 (acc ++ s)
  | Token.txt _ :: rest, d + 1, acc => readText rest (d + 1) acc

theorem readText_drain : ∀ (ts : List Token) (d : Nat) (acc s : String)
    (r : List Token), readText ts d acc = some (s, r) → drain ts d = some r := by
  intro ts
  induction ts with
  | nil => intro d acc s r h; simp [readText] at h
  | cons t rest ih =>
    intro d acc s r h
    cases t with
    | st name => exact ih (d + 1) acc s r (by simpa [readText] using h)
    | en name =>
      cases d with
      | zero =>
        simp only [readText, Option.some.injEq, Prod.mk.injEq] at h
        simp [drain, h.2]
      | succ d => exact ih d acc s r (by simpa [readText] using h)
    | txt str =>
      cases d with
      | zero => exact ih 0 (acc ++ str) s r (by simpa [readText] using h)
      | succ d => exact ih (d + 1) acc s r (by simpa [readText] using h)

theorem drain_readText : ∀ (ts : List Token) (d : Nat) (acc : String)
    (r : List Token), drain ts d = some r → ∃ s, readText ts d acc = some (s, r) := by
  intro ts
  induction ts with
  | nil => intro d acc r h; simp [drain] at h
  | cons t rest ih =>
    intro d acc r h
    cases t with
    | st name =>
      obtain ⟨s, hs⟩ := ih (d + 1) acc r (by simpa [drain] using h)
      exact ⟨s, by simpa [readText] using hs⟩
    | en name =>
      cases d with
      | zero =>
        simp only [drain, Option.some.injEq] at h
        exact ⟨acc, by simp [readText, h]⟩
      | succ d =>
        obtain ⟨s, hs⟩ := ih d acc r (by simpa [drain] using h)
        exact ⟨s, by simpa [readText] using hs⟩
    | txt str =>
      cases d with
      | zero =>
        obtain ⟨s, hs⟩ := ih 0 (acc ++ str) r (by simpa [drain] using h)
        exact ⟨s, by simpa [readText] using hs⟩
      | succ d =>
        obtain ⟨s, hs⟩ := ih (d + 1) acc r (by simpa [drain] using h)
        exact ⟨s, by simpa [readText] using hs⟩

theorem readText_length (ts : List Token) (d : Nat) (acc s : String)
    (r : List Token) (h : readText ts d acc = some (s, r)) : r.length < ts.length :=
  drain_length ts d r (readText_drain ts d acc s r h)

theorem drain_add : ∀ (ts : List Token) (d k : Nat) (r : List Token),
    drain ts d = some r → drain ts (d + k + 1) = drain r k := by
  intro ts
  induction ts with
  | nil => intro d k r h; simp [drain] at h
  | cons t rest ih =>
    intro d k r h
    cases t with
    | st name =>
      have := ih (d + 1) k r (by simpa [drain] using h)
      simpa [drain, Nat.add_right_comm d k 1] using this
    | en name =>
      cases d with
      | zero =>
        simp only [drain, Option.some.injEq] at h
        subst h
        simp [drain]
      | succ d =>
        have := ih d k r (by simpa [drain] using h)
        simpa [drain, Nat.add_right_comm d k 1] using this
    | txt s =>
      have := ih d k r (by simpa [drain] using h)
      simpa [drain] using this

/-- Special case of `drain_add`: after draining a child subtree, draining
at depth one continues as draining at depth zero from the child's end. -/
theorem drain_one (ts r : List Token) (h : drain ts 0 = some r) :
    drain ts 1 = drain r 0 :=
  drain_add ts 0 0 r h

/-- Modelled from the spec: build one `Image` sub-record from the
subtree of an `image` element (stream positioned just after its start
token): `loc` and `title` children set the fields, unknown children are
drained, text at this level is discarded, the matching end token closes
the record. -/
def buildImage (img : Image) (ts : List Token) : Option (Image × List Token) :=
  match ts with
  | [] => none
  | Token.en _ :: rest => some (img, rest)
  | Token.txt _ :: rest => buildImage img rest
  | Token.st name :: rest =>
    if name = "loc" then
      match h : readText rest 0 "" with
      | none => none
      | some (s, r) => buildImage { img with ImageLocation := s } r
    else if name = "title" then
      match h : readText rest 0 "" with
      | none => none
      | some (s, r) => buildImage { img with ImageTitle := s } r
    else
      match h : drain rest 0 with
      | none => none
      | some r => buildImage img r
termination_by ts.length
decreasing_by
  all_goals simp_wf
  all_goals first
    | omega
    | (have hlen2 := readText_length _ _ _ _ _ h; omega)
    | (have hlen2 := drain_length _ _ _ h; omega)

theorem buildImage_drain_aux : ∀ (N : Nat) (img : Image) (ts : List Token),
    ts.length ≤ N → ∀ x r, buildImage img ts = some (x, r) → drain ts 0 = some r := by
  intro N
  induction N with
  | zero =>
    intro img ts hle x r hp
    have : ts = [] := List.length_eq_zero.mp (Nat.le_zero.mp hle)
    subst this
    simp [buildImage] at hp
  | succ N ih =>
    intro img ts hle x r hp
    match ts with
    | [] => simp [buildImage] at hp
    | Token.en name :: rest =>
      simp only [buildImage, Option.some.injEq, Prod.mk.injEq] at hp
      simp [drain, hp.2]
    | Token.txt s :: rest =>
      simp only [buildImage] at hp
      have := ih img rest (by simp only [List.length_cons] at hle; omega) x r hp
      simpa [drain] using this
    | Token.st name :: rest =>
      simp only [List.length_cons] at hle
      simp only [buildImage] at hp
      simp only [drain, Nat.zero_add]
      split at hp
      · split at hp
        · exact absurd hp (by simp)
        · rename_i s r' heq
          have hd := readText_drain rest 0 "" s r' heq
          have hlen := readText_length rest 0 "" s r' heq
          rw [drain_one rest r' hd]
          exact ih _ r' (by omega) x r hp
      · split at hp
        · split at hp
          · exact absurd hp (by simp)
          · rename_i s r' heq
            have hd := readText_drain rest 0 "" s r' heq
            have hlen := readText_length rest 0 "" s r' heq
            rw [drain_one rest r' hd]
            exact ih _ r' (by omega) x r hp
        · split at hp
          · exact absurd hp (by simp)
          · rename_i r' heq
            have hlen := drain_length rest 0 r' heq
            rw [drain_one rest r' heq]
            exact ih _ r' (by omega) x r hp

/-- The image builder consumes exactly the `image` element's subtree. -/
theorem buildImage_drain (img : Image) (ts : List Token) (x : Image)
    (r : List Token) (h : buildImage img ts = some (x, r)) : drain ts 0 = some r :=
  buildImage_drain_aux ts.length img ts (Nat.le_refl _) x r h

theorem buildImage_length (img : Image) (ts : List Token) (x : Image)
    (r : List Token) (h : buildImage img ts = some (x, r)) : r.length < ts.length :=
  drain_length ts 0 r (buildImage_drain img ts x r h)

/-- Modelled from the spec: build the nested `publication` sub-record of
a `news` element from `name` and `language` children. -/
def buildPublication (pb : Publication) (ts : List Token) :
    Option (Publication × List Token) :=
  match ts with
  | [] => none
  | Token.en _ :: rest => some (pb, rest)
  | Token.txt _ :: rest => buildPublication pb rest
  | Token.st name :: rest =>
    if name = "name" then
      match h : readText rest 0 "" with
      | none => none
      | some (s, r) => buildPublication { pb with Name := s } r
    else if name = "language" then
      match h : readText rest 0 "" with
      | none => none
      | some (s, r) => buildPublication { pb with Language := s } r
    else
      match h : drain rest 0 with
      | none => none
      | some r => buildPublication pb r
termination_by ts.length
decreasing_by
  all_goals simp_wf
  all_goals first
    | omega
    | (have hlen2 := readText_length _ _ _ _ _ h; omega)
    | (have hlen2 := drain_length _ _ _ h; omega)

theorem buildPublication_drain_aux : ∀ (N : Nat) (pb : Publication) (ts : List Token),
    ts.length ≤ N → ∀ x r, buildPublication pb ts = some (x, r) → drain ts 0 = some r := by
  intro N
  induction N with
  | zero =>
    intro pb ts hle x r hp
    have : ts = [] := List.length_eq_zero.mp (Nat.le_zero.mp hle)
    subst this
    simp [buildPublication] at hp
  | succ N ih =>
    intro pb ts hle x r hp
    match ts with
    | [] => simp [buildPublication] at hp
    | Token.en name :: rest =>
      simp only [buildPublication, Option.some.injEq, Prod.mk.injEq] at hp
      simp [drain, hp.2]
    | Token.txt s :: rest =>
      simp only [buildPublication] at hp
      have := ih pb rest (by simp only [List.length_cons] at hle; omega) x r hp
      simpa [drain] using this
    | Token.st name :: rest =>
      simp only [List.length_cons] at hle
      simp only [buildPublication] at hp
      simp only [drain, Nat.zero_add]
      split at hp
      · split at hp
        · exact absurd hp (by simp)
        · rename_i s r' heq
          have hd := readText_drain rest 0 "" s r' heq
          have hlen := readText_length rest 0 "" s r' heq
          rw [drain_one rest r' hd]
          exact ih _ r' (by omega) x r hp
      · split at hp
        · split at hp
          · exact absurd hp (by simp)
          · rename_i s r' heq
            have hd := readText_drain rest 0 "" s r' heq
            have hlen := readText_length rest 0 "" s r' heq
            rw [drain_one rest r' hd]
            exact ih _ r' (by omega) x r hp
        · split at hp
          · exact absurd hp (by simp)
          · rename_i r' heq
            have hlen := drain_length rest 0 r' heq
            rw [drain_one rest r' heq]
            exact ih _ r' (by omega) x r hp

/-- The publication builder consumes exactly the element's subtree. -/
theorem buildPublication_drain (pb : Publication) (ts : List Token) (x : Publication)
    (r : List Token) (h : buildPublication pb ts = some (x, r)) : drain ts 0 = some r :=
  buildPublication_drain_aux ts.length pb ts (Nat.le_refl _) x r h

theorem buildPublication_length (pb : Publication) (ts : List Token) (x : Publication)
    (r : List Token) (h : buildPublication pb ts = some (x, r)) : r.length < ts.length :=
  drain_length ts 0 r (buildPublication_drain pb ts x r h)

/-- Modelled from the spec: build the `News` sub-record of a `url`
entry from `publication` (a nested sub-record), `publication_date`,
`title` and `keywords` children; unknown children are drained. -/
def buildNews (nw : News) (ts : List Token) : Option (News × List Token) :=
  match ts with
  | [] => none
  | Token.en _ :: rest => some (nw, rest)
  | Token.txt _ :: rest => buildNews nw rest
  | Token.st name :: rest =>
    if name = "publication" then
      match h : buildPublication nw.Publication rest with
      | none => none
      | some (pb, r) => buildNews { nw with Publication := pb } r
    else if name = "publication_date" then
      match h : readText rest 0 "" with
      | none => none
      | some (s, r) => buildNews { nw with PublicationDate := s } r
    else if name = "title" then
      match h : readText rest 0 "" with
      | none => none
      | some (s, r) => buildNews { nw with Title := s } r
    else if name = "keywords" then
      match h : readText rest 0 "" with
      | none => none
      | some (s, r) => buildNews { nw with Keywords := s } r
    else
      match h : drain rest 0 with
      | none => none
      | some r => buildNews nw r
termination_by ts.length
decreasing_by
  all_goals simp_wf
  all_goals first
    | omega
    | (have hlen2 := buildPublication_length _ _ _ _ h; omega)
    | (have hlen2 := readText_length _ _ _ _ _ h; omega)
    | (have hlen2 := drain_length _ _ _ h; omega)

theorem buildNews_drain_aux : ∀ (N : Nat) (nw : News) (ts : List Token),
    ts.length ≤ N → ∀ x r, buildNews nw ts = some (x, r) → drain ts 0 = some r := by
  intro N
  induction N with
  | zero =>
    intro nw ts hle x r hp
    have : ts = [] := List.length_eq_zero.mp (Nat.le_zero.mp hle)
    subst this
    simp [buildNews] at hp
  | succ N ih =>
    intro nw ts hle x r hp
    match ts with
    | [] => simp [buildNews] at hp
    | Token.en name :: rest =>
      simp only [buildNews, Option.some.injEq, Prod.mk.injEq] at hp
      simp [drain, hp.2]
    | Token.txt s :: rest =>
      simp only [buildNews] at hp
      have := ih nw rest (by simp only [List.length_cons] at hle; omega) x r hp
      simpa [drain] using this
    | Token.st name :: rest =>
      simp only [List.length_cons] at hle
      simp only [buildNews] at hp
      simp only [drain, Nat.zero_add]
      split at hp
      · split at hp
        · exact absurd hp (by simp)
        · rename_i pb r' heq
          have hd := buildPublication_drain _ rest pb r' heq
          have hlen := drain_length rest 0 r' hd
          rw [drain_one rest r' hd]
          exact ih _ r' (by omega) x r hp
      · split at hp
        · split at hp
          · exact absurd hp (by simp)
          · rename_i s r' heq
            have hd := readText_drain rest 0 "" s r' heq
            have hlen := readText_length rest 0 "" s r' heq
            rw [drain_one rest r' hd]
            exact ih _ r' (by omega) x r hp
        · split at hp
          · split at hp
            · exact absurd hp (by simp)
            · rename_i s r' heq
              have hd := readText_drain rest 0 "" s r' heq
              have hlen := readText_length rest 0 "" s r' heq
              rw [drain_one rest r' hd]
              exact ih _ r' (by omega) x r hp
          · split at hp
            · split at hp
              · exact absurd hp (by simp)
              · rename_i s r' heq
                have hd := readText_drain rest 0 "" s r' heq
                have hlen := readText_length rest 0 "" s r' heq
                rw [drain_one rest r' hd]
                exact ih _ r' (by omega) x r hp
            · split at hp
              · exact absurd hp (by simp)
              · rename_i r' heq
                have hlen := drain_length rest 0 r' heq
                rw [drain_one rest r' heq]
                exact ih _ r' (by omega) x r hp

/-- The news builder consumes exactly the `news` element's subtree. -/
theorem buildNews_drain (nw : News) (ts : List Token) (x : News)
    (r : List Token) (h : buildNews nw ts = some (x, r)) : drain ts 0 = some r :=
  buildNews_drain_aux ts.length nw ts (Nat.le_refl _) x r h

theorem buildNews_length (nw : News) (ts : List Token) (x : News)
    (r : List Token) (h : buildNews nw ts = some (x, r)) : r.length < ts.length :=
  drain_length ts 0 r (buildNews_drain nw ts x r h)

/-- Fresh zero-valued `News`, as allocated by `encoding/xml` when a
`news` child appears and the record's pointer field is nil. -/
def emptyNews : News :=
  { Publication := { Name := "", Language := "" }
    PublicationDate := ""
    ParsedPublicationDate := none
    Title := ""
    Keywords := "" }

/-- Fresh zero-valued `Image` appended for each `image` child. -/
def emptyImage : Image :=
  { ImageLocation := "", ImageTitle := "" }

/-- Store the text of a `priority` child: on a parseable decimal the
field is overwritten with the given value, otherwise left unchanged. -/
def setPriority (e : sitemapEntry) (s : String) : sitemapEntry :=
  match parsePriority s with
  | some p => { e with Priority := p }
  | none => e

/-- Modelled from the spec: build one URL entry from the subtree of a
`url` element.  Recognized children: `loc`, `lastmod`, `changefreq`,
`priority` (text leaves), `image` (appends an `Image` sub-record),
`news` (builds the `News` sub-record); any other child subtree is
drained without effect.  Returns the finalized record and the suffix
after the matching end token; `none` on a truncated subtree. -/
def buildEntry (e : sitemapEntry) (ts : List Token) : Option (sitemapEntry × List Token) :=
  match ts with
  | [] => none
  | Token.en _ :: rest => some (e, rest)
  | Token.txt _ :: rest => buildEntry e rest
  | Token.st name :: rest =>
    if name = "loc" then
      match h : readText rest 0 "" with
      | none => none
      | some (s, r) => buildEntry { e with Location := s } r
    else if name = "lastmod" then
      match h : readText rest 0 "" with
      | none => none
      | some (s, r) => buildEntry { e with LastModified := s } r
    else if name = "changefreq" then
      match h : readText rest 0 "" with
      | none => none
      | some (s, r) => buildEntry { e with ChangeFrequency := s } r
    else if name = "priority" then
      match h : readText rest 0 "" with
      | none => none
      | some (s, r) => buildEntry (setPriority e s) r
    else if name = "image" then
      match h : buildImage emptyImage rest with
      | none => none
      | some (img, r) => buildEntry { e with Images := e.Images ++ [img] } r
    else if name = "news" then
      match h : buildNews emptyNews rest with
      | none => none
      | some (nw, r) => buildEntry { e with News := some nw } r
    else
      match h : drain rest 0 with
      | none => none
      | some r => buildEntry e r
termination_by ts.length
decreasing_by
  all_goals simp_wf
  all_goals first
    | omega
    | (have hlen2 := readText_length _ _ _ _ _ h; omega)
    | (have hlen2 := buildImage_length _ _ _ _ h; omega)
    | (have hlen2 := buildNews_length _ _ _ _ h; omega)
    | (have hlen2 := drain_length _ _ _ h; omega)

theorem buildEntry_drain_aux : ∀ (N : Nat) (e : sitemapEntry) (ts : List Token),
    ts.length ≤ N → ∀ x r, buildEntry e ts = some (x, r) → drain ts 0 = some r := by
  intro N
  induction N with
  | zero =>
    intro e ts hle x r hp
    have : ts = [] := List.length_eq_zero.mp (Nat.le_zero.mp hle)
    subst this
    simp [buildEntry] at hp
  | succ N ih =>
    intro e ts hle x r hp
    match ts with
    | [] => simp [buildEntry] at hp
    | Token.en name :: rest =>
      simp only [buildEntry, Option.some.injEq, Prod.mk.injEq] at hp
      simp [drain, hp.2]
    | Token.txt s :: rest =>
      simp only [buildEntry] at hp
      have := ih e rest (by simp only [List.length_cons] at hle; omega) x r hp
      simpa [drain] using this
    | Token.st name :: rest =>
      simp only [List.length_cons] at hle
      simp only [buildEntry] at hp
      simp only [drain, Nat.zero_add]
      split at hp
      · split at hp
        · exact absurd hp (by simp)
        · rename_i s r' heq
          have hd := readText_drain rest 0 "" s r' heq
          have hlen := readText_length rest 0 "" s r' heq
          rw [drain_one rest r' hd]
          exact ih _ r' (by omega) x r hp
      · split at hp
        · split at hp
          · exact absurd hp (by simp)
          · rename_i s r' heq
            have hd := readText_drain rest 0 "" s r' heq
            have hlen := readText_length rest 0 "" s r' heq
            rw [drain_one rest r' hd]
            exact ih _ r' (by omega) x r hp
        · split at hp
          · split at hp
            · exact absurd hp (by simp)
            · rename_i s r' heq
              have hd := readText_drain rest 0 "" s r' heq
              have hlen := readText_length rest 0 "" s r' heq
              rw [drain_one rest r' hd]
              exact ih _ r' (by omega) x r hp
          · split at hp
            · split at hp
              · exact absurd hp (by simp)
              · rename_i s r' heq
                have hd := readText_drain rest 0 "" s r' heq
                have hlen := readText_length rest 0 "" s r' heq
                rw [drain_one rest r' hd]
                exact ih _ r' (by omega) x r hp
            · split at hp
              · split at hp
                · exact absurd hp (by simp)
                · rename_i img r' heq
                  have hd := buildImage_drain _ rest img r' heq
                  have hlen := drain_length rest 0 r' hd
                  rw [drain_one rest r' hd]
                  exact ih _ r' (by omega) x r hp
              · split at hp
                · split at hp
                  · exact absurd hp (by simp)
                  · rename_i nw r' heq
                    have hd := buildNews_drain _ rest nw r' heq
                    have hlen := drain_length rest 0 r' hd
                    rw [drain_one rest r' hd]
                    exact ih _ r' (by omega) x r hp
                · split at hp
                  · exact absurd hp (by simp)
                  · rename_i r' heq
                    have hlen := drain_length rest 0 r' heq
                    rw [drain_one rest r' heq]
                    exact ih _ r' (by omega) x r hp

/-- The entry builder consumes exactly the `url` element's subtree. -/
theorem buildEntry_drain (e : sitemapEntry) (ts : List Token) (x : sitemapEntry)
    (r : List Token) (h : buildEntry e ts = some (x, r)) : drain ts 0 = some r :=
  buildEntry_drain_aux ts.length e ts (Nat.le_refl _) x r h

theorem buildEntry_length (e : sitemapEntry) (ts : List Token) (x : sitemapEntry)
    (r : List Token) (h : buildEntry e ts = some (x, r)) : r.length < ts.length :=
  drain_length ts 0 r (buildEntry_drain e ts x r h)

/-- Modelled from the spec: build one index entry from the subtree of a
`sitemap` element; only `loc` and `lastmod` are recognized, everything
else is drained. -/
def buildIndexEntry (e : sitemapIndexEntry) (ts : List Token) :
    Option (sitemapIndexEntry × List Token) :=
  match ts with
  | [] => none
  | Token.en _ :: rest => some (e, rest)
  | Token.txt _ :: rest => buildIndexEntry e rest
  | Token.st name :: rest =>
    if name = "loc" then
      match h : readText rest 0 "" with
      | none => none
      | some (s, r) => buildIndexEntry { e with Location := s } r
    else if name = "lastmod" then
      match h : readText rest 0 "" with
      | none => none
      | some (s, r) => buildIndexEntry { e with LastModified := s } r
    else
      match h : drain rest 0 with
      | none => none
      | some r => buildIndexEntry e r
termination_by ts.length
decreasing_by
  all_goals simp_wf
  all_goals first
    | omega
    | (have hlen2 := readText_length _ _ _ _ _ h; omega)
    | (have hlen2 := drain_length _ _ _ h; omega)

theorem buildIndexEntry_drain_aux : ∀ (N : Nat) (e : sitemapIndexEntry) (ts : List Token),
    ts.length ≤ N → ∀ x r, buildIndexEntry e ts = some (x, r) → drain ts 0 = some r := by
  intro N
  induction N with
  | zero =>
    intro e ts hle x r hp
    have : ts = [] := List.length_eq_zero.mp (Nat.le_zero.mp hle)
    subst this
    simp [buildIndexEntry] at hp
  | succ N ih =>
    intro e ts hle x r hp
    match ts with
    | [] => simp [buildIndexEntry] at hp
    | Token.en name :: rest =>
      simp only [buildIndexEntry, Option.some.injEq, Prod.mk.injEq] at hp
      simp [drain, hp.2]
    | Token.txt s :: rest =>
      simp only [buildIndexEntry] at hp
      have := ih e rest (by simp only [List.length_cons] at hle; omega) x r hp
      simpa [drain] using this
    | Token.st name :: rest =>
      simp only [List.length_cons] at hle
      simp only [buildIndexEntry] at hp
      simp only [drain, Nat.zero_add]
      split at hp
      · split at hp
        · exact absurd hp (by simp)
        · rename_i s r' heq
          have hd := readText_drain rest 0 "" s r' heq
          have hlen := readText_length rest 0 "" s r' heq
          rw [drain_one rest r' hd]
          exact ih _ r' (by omega) x r hp
      · split at hp
        · split at hp
          · exact absurd hp (by simp)
          · rename_i s r' heq
            have hd := readText_drain rest 0 "" s r' heq
            have hlen := readText_length rest 0 "" s r' heq
            rw [drain_one rest r' hd]
            exact ih _ r' (by omega) x r hp
        · split at hp
          · exact absurd hp (by simp)
          · rename_i r' heq
            have hlen := drain_length rest 0 r' heq
            rw [drain_one rest r' heq]
            exact ih _ r' (by omega) x r hp

/-- The index-entry builder consumes exactly the element's subtree. -/
theorem buildIndexEntry_drain (e : sitemapIndexEntry) (ts : List Token)
    (x : sitemapIndexEntry) (r : List Token)
    (h : buildIndexEntry e ts = some (x, r)) : drain ts 0 = some r :=
  buildIndexEntry_drain_aux ts.length e ts (Nat.le_refl _) x r h

theorem buildIndexEntry_length (e : sitemapIndexEntry) (ts : List Token)
    (x : sitemapIndexEntry) (r : List Token)
    (h : buildIndexEntry e ts = some (x, r)) : r.length < ts.length :=
  drain_length ts 0 r (buildIndexEntry_drain e ts x r h)

/-! ## The decode loop

Modelled from the spec (section 4.2) and the visible wiring in
`Parse`/`ParseIndex`: the loop walks the token stream, ignores every
token that is not a record-start element, and on each record-start
invokes the builder and then the consumer.

A Go consumer is a closure with arbitrary captured state; it is
modelled as a state-passing function `σ → ρ → σ × Option ε`, `none`
meaning continue and `some er` meaning stop with failure value `er`.
The loop additionally returns the number of consumer invocations, which
in Go is observable only through the consumer's own effects. -/

/-- Outcome classification of a parse operation: a structural decode
failure from the tokenizer, or the consumer's own stop value, carried
verbatim. -/
inductive ParseError (ε : Type) where
  | malformed : ParseError ε
  | consumer (er : ε) : ParseError ε
deriving DecidableEq

/-- Modelled from the spec: the decode loop.  `build` consumes one
record subtree (the proof `hb` that it consumes at least one token
justifies termination); `truncated` tells whether the tokenizer fails
after the listed tokens.  Returns final consumer state, number of
consumer invocations, and the operation's result. -/
def parseLoop {ρ σ ε : Type} (tag : String)
    (build : List Token → Option (ρ × List Token))
    (hb : ∀ ts x r, build ts = some (x, r) → r.length < ts.length)
    (consume : σ → ρ → σ × Option ε) :
    List Token → Bool → σ → Nat → σ × Nat × Except (ParseError ε) Unit
  | [], truncated, s, n => (s, n, if truncated then .error .malformed else .ok ())
  | Token.st name :: rest, truncated, s, n =>
    if name = tag then
      match h : build rest with
      | none => (s, n, .error .malformed)
      | some (x, r) =>
        match consume s x with
        | (s', some er) => (s', n + 1, .error (.consumer er))
        | (s', none) => parseLoop tag build hb consume r truncated s' (n + 1)
    else parseLoop tag build hb consume rest truncated s n
  | Token.en _ :: rest, truncated, s, n => parseLoop tag build hb consume rest truncated s n
  | Token.txt _ :: rest, truncated, s, n => parseLoop tag build hb consume rest truncated s n
termination_by ts _ _ _ => ts.length
decreasing_by
  all_goals simp_wf
  all_goals first
    | omega
    | (have hlen2 := hb _ _ _ h; omega)

/-- The records a run of the decode loop would deliver: the list of
finalized records in document order, and whether the scan reached the
end of the stream without a failed build. -/
def scanRecords {ρ : Type} (tag : String)
    (build : List Token → Option (ρ × List Token))
    (hb : ∀ ts x r, build ts = some (x, r) → r.length < ts.length) :
    List Token → List ρ × Bool
  | [] => ([], true)
  | Token.st name :: rest =>
    if name = tag then
      match h : build rest with
      | none => ([], false)
      | some (x, r) =>
        let p := scanRecords tag build hb r
        (x :: p.1, p.2)
    else scanRecords tag build hb rest
  | Token.en _ :: rest => scanRecords tag build hb rest
  | Token.txt _ :: rest => scanRecords tag build hb rest
termination_by ts => ts.length
decreasing_by
  all_goals simp_wf
  all_goals first
    | omega
    | (have hlen2 := hb _ _ _ h; omega)

/-- Reference fold: feed a list of already-built records to the
consumer one by one, stopping on the first failure; at the end of the
list, fail structurally iff `failAtEnd`. -/
def runRecords {ρ σ ε : Type} (consume : σ → ρ → σ × Option ε) (failAtEnd : Bool) :
    σ → Nat → List ρ → σ × Nat × Except (ParseError ε) Unit
  | s, n, [] => (s, n, if failAtEnd then .error .malformed else .ok ())
  | s, n, x :: rs =>
    match consume s x with
    | (s', some er) => (s', n + 1, .error (.consumer er))
    | (s', none) => runRecords consume failAtEnd s' (n + 1) rs

section LoopLemmas

variable {ρ σ ε : Type} (tag : String)
variable (build : List Token → Option (ρ × List Token))
variable (hb : ∀ ts x r, build ts = some (x, r) → r.length < ts.length)
variable (consume : σ → ρ → σ × Option ε)

theorem scanRecords_nil : scanRecords tag build hb [] = ([], true) := by
  simp [scanRecords]

theorem scanRecords_en (a : String) (rest : List Token) :
    scanRecords tag build hb (Token.en a :: rest) = scanRecords tag build hb rest := by
  simp [scanRecords]

theorem scanRecords_txt (a : String) (rest : List Token) :
    scanRecords tag build hb (Token.txt a :: rest) = scanRecords tag build hb rest := by
  simp [scanRecords]

theorem scanRecords_st_ne (name : String) (rest : List Token) (hne : ¬name = tag) :
    scanRecords tag build hb (Token.st name :: rest) = scanRecords tag build hb rest := by
  simp [scanRecords, hne]

theorem scanRecords_st_none (name : String) (rest : List Token)
    (htag : name = tag) (hbuild : build rest = none) :
    scanRecords tag build hb (Token.st name :: rest) = ([], false) := by
  simp only [scanRecords, if_pos htag]
  split
  · rfl
  · rename_i x' r' heq
    rw [hbuild] at heq
    cases heq

theorem scanRecords_st_some (name : String) (rest : List Token) (x : ρ)
    (r : List Token) (htag : name = tag) (hbuild : build rest = some (x, r)) :
    scanRecords tag build hb (Token.st name :: rest) =
      (x :: (scanRecords tag build hb r).1, (scanRecords tag build hb r).2) := by
  simp only [scanRecords, if_pos htag]
  split
  · rename_i heq
    rw [hbuild] at heq
    cases heq
  · rename_i x' r' heq
    rw [hbuild] at heq
    simp only [Option.some.injEq, Prod.mk.injEq] at heq
    obtain ⟨h1, h2⟩ := heq
    subst h1
    subst h2
    rfl

theorem parseLoop_nil (tr : Bool) (s : σ) (n : Nat) :
    parseLoop tag build hb consume [] tr s n =
      (s, n, if tr then .error .malformed else .ok ()) := by
  simp [parseLoop]

theorem parseLoop_en (a : String) (rest : List Token) (tr : Bool) (s : σ) (n : Nat) :
    parseLoop tag build hb consume (Token.en a :: rest) tr s n =
      parseLoop tag build hb consume rest tr s n := by
  simp [parseLoop]

theorem parseLoop_txt (a : String) (rest : List Token) (tr : Bool) (s : σ) (n : Nat) :
    parseLoop tag build hb consume (Token.txt a :: rest) tr s n =
      parseLoop tag build hb consume rest tr s n := by
  simp [parseLoop]

theorem parseLoop_st_ne (name : String) (rest : List Token) (tr : Bool) (s : σ)
    (n : Nat) (hne : ¬name = tag) :
    parseLoop tag build hb consume (Token.st name :: rest) tr s n =
      parseLoop tag build hb consume rest tr s n := by
  simp [parseLoop, hne]

theorem parseLoop_st_none (name : String) (rest : List Token) (tr : Bool) (s : σ)
    (n : Nat) (htag : name = tag) (hbuild : build rest = none) :
    parseLoop tag build hb consume (Token.st name :: rest) tr s n =
      (s, n, .error .malformed) := by
  simp only [parseLoop, if_pos htag]
  split
  · rfl
  · rename_i x' r' heq
    rw [hbuild] at heq
    cases heq

theorem parseLoop_st_some (name : String) (rest : List Token) (x : ρ) (r : List Token)
    (tr : Bool) (s : σ) (n : Nat) (htag : name = tag) (hbuild : build rest = some (x, r)) :
    parseLoop tag build hb consume (Token.st name :: rest) tr s n =
      (match consume s x with
       | (s', some er) => (s', n + 1, .error (.consumer er))
       | (s', none) => parseLoop tag build hb consume r tr s' (n + 1)) := by
  simp only [parseLoop, if_pos htag]
  split
  · rename_i heq
    rw [hbuild] at heq
    cases heq
  · rename_i x' r' heq
    rw [hbuild] at heq
    simp only [Option.some.injEq, Prod.mk.injEq] at heq
    obtain ⟨h1, h2⟩ := heq
    subst h1
    subst h2
    rfl

theorem parseLoop_eq_scan_aux : ∀ (N : Nat) (ts : List Token), ts.length ≤ N →
    ∀ (tr : Bool) (s : σ) (n : Nat),
    parseLoop tag build hb consume ts tr s n =
      runRecords consume (tr || !(scanRecords tag build hb ts).2) s n
        (scanRecords tag build hb ts).1 := by
  intro N
  induction N with
  | zero =>
    intro ts hle tr s n
    have : ts = [] := List.length_eq_zero.mp (Nat.le_zero.mp hle)
    subst this
    simp [parseLoop_nil, scanRecords_nil, runRecords]
  | succ N ih =>
    intro ts hle tr s n
    match ts with
    | [] => simp [parseLoop_nil, scanRecords_nil, runRecords]
    | Token.en a :: rest =>
      simp only [List.length_cons] at hle
      rw [parseLoop_en, scanRecords_en]
      exact ih rest (by omega) tr s n
    | Token.txt a :: rest =>
      simp only [List.length_cons] at hle
      rw [parseLoop_txt, scanRecords_txt]
      exact ih rest (by omega) tr s n
    | Token.st name :: rest =>
      simp only [List.length_cons] at hle
      by_cases htag : name = tag
      · cases hbuild : build rest with
        | none =>
          rw [parseLoop_st_none tag build hb consume name rest tr s n htag hbuild,
            scanRecords_st_none tag build hb name rest htag hbuild]
          simp [runRecords]
        | some p =>
          obtain ⟨x, r⟩ := p
          have hlen := hb rest x r hbuild
          rw [parseLoop_st_some tag build hb consume name rest x r tr s n htag hbuild,
            scanRecords_st_some tag build hb name rest x r htag hbuild]
          cases hc : consume s x with
          | mk s' oe =>
            cases oe with
            | none =>
              simp only [runRecords, hc]
              exact ih r (by omega) tr s' (n + 1)
            | some er =>
              simp only [runRecords, hc]
      · rw [parseLoop_st_ne tag build hb consume name rest tr s n htag,
          scanRecords_st_ne tag build hb name rest htag]
        exact ih rest (by omega) tr s n

/-- Master lemma: a run of the decode loop interacts with the consumer
exactly as the left-to-right fold over the scanned record list, and
ends in a structural failure iff the stream was truncated or a record
build failed. -/
theorem parseLoop_eq_scan (ts : List Token) (tr : Bool) (s : σ) (n : Nat) :
    parseLoop tag build hb consume ts tr s n =
      runRecords consume (tr || !(scanRecords tag build hb ts).2) s n
        (scanRecords tag build hb ts).1 :=
  parseLoop_eq_scan_aux tag build hb consume ts.length ts (Nat.le_refl _) tr s n

end LoopLemmas

/-- Termination bound for the URL-entry builder, in the form the loop needs. -/
theorem buildEntryStep (us : List Token) (x : sitemapEntry) (r : List Token)
    (h : buildEntry newSitemapEntry us = some (x, r)) : r.length < us.length :=
  buildEntry_length newSitemapEntry us x r h

/-- Termination bound for the index-entry builder. -/
theorem buildIndexEntryStep (us : List Token) (x : sitemapIndexEntry) (r : List Token)
    (h : buildIndexEntry newSitemapIndexEntry us = some (x, r)) : r.length < us.length :=
  buildIndexEntry_length newSitemapIndexEntry us x r h

/-- Go `Parse` (sitemap.go): run the decode loop over the stream,
building a fresh entry (`newSitemapEntry`) for each `url` record-start
element and feeding each finalized record to the consumer. -/
def Parse {σ ε : Type} (consume : σ → sitemapEntry → σ × Option ε) (s₀ : σ)
    (ts : List Token) (truncated : Bool) : σ × Nat × Except (ParseError ε) Unit :=
  parseLoop "url" (buildEntry newSitemapEntry) buildEntryStep consume ts truncated s₀ 0

/-- Go `ParseIndex` (sitemap.go): same loop over `sitemap` record-start
elements. -/
def ParseIndex {σ ε : Type} (consume : σ → sitemapIndexEntry → σ × Option ε) (s₀ : σ)
    (ts : List Token) (truncated : Bool) : σ × Nat × Except (ParseError ε) Unit :=
  parseLoop "sitemap" (buildIndexEntry newSitemapIndexEntry) buildIndexEntryStep
    consume ts truncated s₀ 0

/-- The URL records a document scan delivers, with its cleanness flag. -/
def urlScan (ts : List Token) : List sitemapEntry × Bool :=
  scanRecords "url" (buildEntry newSitemapEntry) buildEntryStep ts

/-- The index records a document scan delivers, with its cleanness flag. -/
def indexScan (ts : List Token) : List sitemapIndexEntry × Bool :=
  scanRecords "sitemap" (buildIndexEntry newSitemapIndexEntry) buildIndexEntryStep ts

/-- Count of record-start elements with the given tag at consumable
positions: occurrences inside an already-matched record subtree are
skipped along with that subtree.  Defined from the token stream alone,
independently of the builders. -/
def countTags (tag : String) (ts : List Token) : Nat :=
  match ts with
  | [] => 0
  | Token.st name :: rest =>
    if name = tag then
      match h : drain rest 0 with
      | none => 0
      | some r => countTags tag r + 1
    else countTags tag rest
  | Token.en _ :: rest => countTags tag rest
  | Token.txt _ :: rest => countTags tag rest
termination_by ts.length
decreasing_by
  all_goals simp_wf
  all_goals first
    | omega
    | (have hlen2 := drain_length _ _ _ h; omega)

theorem countTags_nil (tag : String) : countTags tag [] = 0 := by
  simp [countTags]

theorem countTags_en (tag a : String) (rest : List Token) :
    countTags tag (Token.en a :: rest) = countTags tag rest := by
  simp [countTags]

theorem countTags_txt (tag a : String) (rest : List Token) :
    countTags tag (Token.txt a :: rest) = countTags tag rest := by
  simp [countTags]

theorem countTags_st_ne (tag name : String) (rest : List Token) (hne : ¬name = tag) :
    countTags tag (Token.st name :: rest) = countTags tag rest := by
  simp [countTags, hne]

theorem countTags_st_some (tag name : String) (rest r : List Token)
    (htag : name = tag) (hdrain : drain rest 0 = some r) :
    countTags tag (Token.st name :: rest) = countTags tag r + 1 := by
  simp only [countTags, if_pos htag]
  split
  · rename_i heq
    rw [hdrain] at heq
    cases heq
  · rename_i r' heq
    rw [hdrain] at heq
    simp only [Option.some.injEq] at heq
    subst heq
    rfl

/-- On a clean scan, the number of records delivered equals the number
of consumable record-start elements, for any builder that consumes
exactly one element subtree. -/
theorem scanRecords_clean_count {ρ : Type} (tag : String)
    (build : List Token → Option (ρ × List Token))
    (hb : ∀ us x r, build us = some (x, r) → r.length < us.length)
    (hbd : ∀ us x r, build us = some (x, r) → drain us 0 = some r) :
    ∀ (N : Nat) (ts : List Token), ts.length ≤ N → ∀ rs,
    scanRecords tag build hb ts = (rs, true) → rs.length = countTags tag ts := by
  intro N
  induction N with
  | zero =>
    intro ts hle rs hscan
    have : ts = [] := List.length_eq_zero.mp (Nat.le_zero.mp hle)
    subst this
    rw [scanRecords_nil] at hscan
    cases hscan
    simp [countTags_nil]
  | succ N ih =>
    intro ts hle rs hscan
    match ts with
    | [] =>
      rw [scanRecords_nil] at hscan
      cases hscan
      simp [countTags_nil]
    | Token.en a :: rest =>
      simp only [List.length_cons] at hle
      rw [scanRecords_en] at hscan
      rw [countTags_en]
      exact ih rest (by omega) rs hscan
    | Token.txt a :: rest =>
      simp only [List.length_cons] at hle
      rw [scanRecords_txt] at hscan
      rw [countTags_txt]
      exact ih rest (by omega) rs hscan
    | Token.st name :: rest =>
      simp only [List.length_cons] at hle
      by_cases htag : name = tag
      · cases hbuild : build rest with
        | none =>
          rw [scanRecords_st_none tag build hb name rest htag hbuild] at hscan
          cases hscan
        | some p =>
          obtain ⟨x, r⟩ := p
          have hlen := hb rest x r hbuild
          have hdr := hbd rest x r hbuild
          rw [scanRecords_st_some tag build hb name rest x r htag hbuild] at hscan
          rw [countTags_st_some tag name rest r htag hdr]
          have h1 : x :: (scanRecords tag build hb r).1 = rs := congrArg Prod.fst hscan
          have h2 : (scanRecords tag build hb r).2 = true := congrArg Prod.snd hscan
          subst h1
          have := ih r (by omega) (scanRecords tag build hb r).1
            (by rw [← h2])
          simp [this]
      · rw [scanRecords_st_ne tag build hb name rest htag] at hscan
        rw [countTags_st_ne tag name rest htag]
        exact ih rest (by omega) rs hscan

/-- When the consumer never requests a stop, the fold visits every
record, counts one invocation per record, and ends according to the
failure flag. -/
theorem runRecords_all_none {ρ σ ε : Type} (consume : σ → ρ → σ × Option ε)
    (hc : ∀ s x, (consume s x).2 = none) (f : Bool) :
    ∀ (rs : List ρ) (s : σ) (n : Nat), ∃ s',
    runRecords consume f s n rs =
      (s', n + rs.length, if f then Except.error ParseError.malformed else Except.ok ()) := by
  intro rs
  induction rs with
  | nil => intro s n; exact ⟨s, by simp [runRecords]⟩
  | cons x rs ih =>
    intro s n
    cases hcon : consume s x with
    | mk s' oe =>
      have := hc s x
      rw [hcon] at this
      simp only at this
      subst this
      obtain ⟨s'', h⟩ := ih s' (n + 1)
      refine ⟨s'', ?_⟩
      simp only [runRecords, hcon]
      rw [h]
      simp only [List.length_cons]
      have heq : n + 1 + rs.length = n + (rs.length + 1) := by omega
      rw [heq]

/-- A fold that ends successfully performed one invocation per record. -/
theorem runRecords_ok_count {ρ σ ε : Type} (consume : σ → ρ → σ × Option ε) (f : Bool) :
    ∀ (rs : List ρ) (s : σ) (n : Nat) (s' : σ) (n' : Nat),
    runRecords consume f s n rs = (s', n', Except.ok ()) → n' = n + rs.length := by
  intro rs
  induction rs with
  | nil =>
    intro s n s' n' h
    simp only [runRecords] at h
    cases f with
    | false =>
      simp only [Bool.false_eq_true, if_false, Prod.mk.injEq] at h
      simp [h.2.1]
    | true => simp at h
  | cons x rs ih =>
    intro s n s' n' h
    simp only [runRecords] at h
    cases hcon : consume s x with
    | mk s₁ oe =>
      rw [hcon] at h
      cases oe with
      | some er => simp at h
      | none =>
        simp only at h
        have := ih s₁ (n + 1) s' n' h
        simp only [List.length_cons]
        omega

/-- Splitting a fold at a list append: the first part runs with the
non-failing end flag; if it completes, the second part continues from
its state and count. -/
theorem runRecords_append {ρ σ ε : Type} (consume : σ → ρ → σ × Option ε) (f : Bool) :
    ∀ (l₁ l₂ : List ρ) (s : σ) (n : Nat),
    runRecords consume f s n (l₁ ++ l₂) =
      (match runRecords consume false s n l₁ with
       | (s', n', Except.ok _) => runRecords consume f s' n' l₂
       | (s', n', Except.error e) => (s', n', Except.error e)) := by
  intro l₁
  induction l₁ with
  | nil => intro l₂ s n; simp [runRecords]
  | cons x l₁ ih =>
    intro l₂ s n
    simp only [List.cons_append, runRecords]
    cases hcon : consume s x with
    | mk s₁ oe =>
      cases oe with
      | some er => simp
      | none => simpa using ih l₂ s₁ (n + 1)

/-- Names of the immediate child elements of the element whose subtree
starts at `ts` (position just after its start token), in order; on a
truncated stream the names read so far.  Defined from the token stream
alone, independently of the builders. -/
def childNames (ts : List Token) : List String :=
  match ts with
  | [] => []
  | Token.en _ :: _ => []
  | Token.txt _ :: rest => childNames rest
  | Token.st name :: rest =>
    match h : drain rest 0 with
    | none => [name]
    | some r => name :: childNames r
termination_by ts.length
decreasing_by
  all_goals simp_wf
  all_goals first
    | omega
    | (have hlen2 := drain_length _ _ _ h; omega)

theorem childNames_en (a : String) (rest : List Token) :
    childNames (Token.en a :: rest) = [] := by
  simp [childNames]

theorem childNames_txt (a : String) (rest : List Token) :
    childNames (Token.txt a :: rest) = childNames rest := by
  simp [childNames]

theorem childNames_st_some (name : String) (rest r : List Token)
    (hdrain : drain rest 0 = some r) :
    childNames (Token.st name :: rest) = name :: childNames r := by
  simp only [childNames]
  split
  · rename_i heq
    rw [hdrain] at heq
    cases heq
  · rename_i r' heq
    rw [hdrain] at heq
    simp only [Option.some.injEq] at heq
    subst heq
    rfl

theorem setPriority_changefreq (e : sitemapEntry) (s : String) :
    (setPriority e s).ChangeFrequency = e.ChangeFrequency := by
  cases h : parsePriority s <;> simp [setPriority, h]

theorem setPriority_of_some (e : sitemapEntry) (s : String) (p : Rat)
    (h : parsePriority s = some p) : (setPriority e s).Priority = p := by
  simp [setPriority, h]

/-- The entry builder changes the change-frequency field only on a
`changefreq` child and the priority field only on a `priority` child. -/
theorem buildEntry_preserve_aux : ∀ (N : Nat) (e : sitemapEntry) (ts : List Token),
    ts.length ≤ N → ∀ x r, buildEntry e ts = some (x, r) →
    ("changefreq" ∉ childNames ts → x.ChangeFrequency = e.ChangeFrequency) ∧
    ("priority" ∉ childNames ts → x.Priority = e.Priority) := by
  intro N
  induction N with
  | zero =>
    intro e ts hle x r hp
    have : ts = [] := List.length_eq_zero.mp (Nat.le_zero.mp hle)
    subst this
    simp [buildEntry] at hp
  | succ N ih =>
    intro e ts hle x r hp
    match ts with
    | [] => simp [buildEntry] at hp
    | Token.en name :: rest =>
      simp only [buildEntry, Option.some.injEq, Prod.mk.injEq] at hp
      rw [← hp.1]
      exact ⟨fun _ => rfl, fun _ => rfl⟩
    | Token.txt s :: rest =>
      simp only [List.length_cons] at hle
      simp only [buildEntry] at hp
      rw [childNames_txt]
      exact ih e rest (by omega) x r hp
    | Token.st name :: rest =>
      simp only [List.length_cons] at hle
      simp only [buildEntry] at hp
      split at hp
      · -- loc child
        rename_i hname
        split at hp
        · exact absurd hp (by simp)
        · rename_i s r' heq
          have hd := readText_drain rest 0 "" s r' heq
          have hlen := readText_length rest 0 "" s r' heq
          have hih := ih _ r' (by omega) x r hp
          rw [childNames_st_some name rest r' hd]
          simp only [List.mem_cons, not_or]
          exact ⟨fun hn => hih.1 hn.2, fun hn => hih.2 hn.2⟩
      · split at hp
        · -- lastmod child
          rename_i hname
          split at hp
          · exact absurd hp (by simp)
          · rename_i s r' heq
            have hd := readText_drain rest 0 "" s r' heq
            have hlen := readText_length rest 0 "" s r' heq
            have hih := ih _ r' (by omega) x r hp
            rw [childNames_st_some name rest r' hd]
            simp only [List.mem_cons, not_or]
            exact ⟨fun hn => hih.1 hn.2, fun hn => hih.2 hn.2⟩
        · split at hp
          · -- changefreq child
            rename_i hname
            split at hp
            · exact absurd hp (by simp)
            · rename_i s r' heq
              have hd := readText_drain rest 0 "" s r' heq
              have hlen := readText_length rest 0 "" s r' heq
              have hih := ih _ r' (by omega) x r hp
              rw [childNames_st_some name rest r' hd]
              subst hname
              simp only [List.mem_cons, not_or]
              constructor
              · intro hn
                exact absurd trivial hn.1
              · intro hn
                exact hih.2 hn.2
          · split at hp
            · -- priority child
              rename_i hname
              split at hp
              · exact absurd hp (by simp)
              · rename_i s r' heq
                have hd := readText_drain rest 0 "" s r' heq
                have hlen := readText_length rest 0 "" s r' heq
                have hih := ih _ r' (by omega) x r hp
                rw [childNames_st_some name rest r' hd]
                subst hname
                simp only [List.mem_cons, not_or]
                constructor
                · intro hn
                  rw [hih.1 hn.2]
                  exact setPriority_changefreq e s
                · intro hn
                  exact absurd trivial hn.1
            · split at hp
              · -- image child
                rename_i hname
                split at hp
                · exact absurd hp (by simp)
                · rename_i img r' heq
                  have hd := buildImage_drain _ rest img r' heq
                  have hlen := drain_length rest 0 r' hd
                  have hih := ih _ r' (by omega) x r hp
                  rw [childNames_st_some name rest r' hd]
                  simp only [List.mem_cons, not_or]
                  exact ⟨fun hn => hih.1 hn.2, fun hn => hih.2 hn.2⟩
              · split at hp
                · -- news child
                  rename_i hname
                  split at hp
                  · exact absurd hp (by simp)
                  · rename_i nw r' heq
                    have hd := buildNews_drain _ rest nw r' heq
                    have hlen := drain_length rest 0 r' hd
                    have hih := ih _ r' (by omega) x r hp
                    rw [childNames_st_some name rest r' hd]
                    simp only [List.mem_cons, not_or]
                    exact ⟨fun hn => hih.1 hn.2, fun hn => hih.2 hn.2⟩
                · -- unknown child
                  split at hp
                  · exact absurd hp (by simp)
                  · rename_i r' heq
                    have hlen := drain_length rest 0 r' heq
                    have hih := ih _ r' (by omega) x r hp
                    rw [childNames_st_some name rest r' heq]
                    simp only [List.mem_cons, not_or]
                    exact ⟨fun hn => hih.1 hn.2, fun hn => hih.2 hn.2⟩

/-- Packaging of `buildEntry_preserve_aux` at the list's own length. -/
theorem buildEntry_preserve (e : sitemapEntry) (ts : List Token) (x : sitemapEntry)
    (r : List Token) (hp : buildEntry e ts = some (x, r)) :
    ("changefreq" ∉ childNames ts → x.ChangeFrequency = e.ChangeFrequency) ∧
    ("priority" ∉ childNames ts → x.Priority = e.Priority) :=
  buildEntry_preserve_aux ts.length e ts (Nat.le_refl _) x r hp

/-! ## Retrieval adapter and convenience wrappers (sitemap.go)

`get` performs the HTTP request; here the network outcome
(`http.DefaultClient.Do`) is an input: `none` stands for a failed
request or transport error (returned verbatim), `some r` for a received
response.  The body type is the token stream the tokenizer will produce
from the bytes, paired with its truncation flag; `gunzip` stands for
`gzip.NewReader`, `none` meaning the gzip header/stream is invalid.

The wrappers embed Go's `defer Close()` on the acquired byte source as
an explicit release count returned next to the result: the count is the
number of times the scoped resource acquired by the wrapper is
released before it returns. -/

/-- An HTTP response as `get` observes it: status code, the
`Content-Encoding` header, and the body. -/
structure HttpResponse (β : Type) where
  statusCode : Nat
  contentEncoding : String
  body : β

/-- Failures of `get`: a request/transport error passed through
verbatim, the formatted status error (carrying the target URL and the
status code, as `fmt.Errorf` does), or a gzip construction error. -/
inductive GetError where
  | networkFail : GetError
  | statusError (url : String) (code : Nat) : GetError
  | gzipFail : GetError
deriving DecidableEq

namespace sitemap

/-- Go `get` (sitemap.go): propagate a request/transport failure; fail
with URL and code when `res.StatusCode >= 400`; when the response
declares `Content-Encoding: gzip`, hand over the gzip-decompressed
body; otherwise hand over the body unchanged. -/
def get {β : Type} (gunzip : β → Option β) (url : String)
    (res : Option (HttpResponse β)) : Except GetError β :=
  match res with
  | none => Except.error GetError.networkFail
  | some r =>
    if r.statusCode ≥ 400 then Except.error (GetError.statusError url r.statusCode)
    else if r.contentEncoding = "gzip" then
      match gunzip r.body with
      | none => Except.error GetError.gzipFail
      | some b => Except.ok b
    else Except.ok r.body

end sitemap

/-- Follows the spec's words, for comparison with `get`: an HTTP status
is a success iff it lies in the 2xx class. -/
def httpSuccess (code : Nat) : Bool :=
  200 ≤ code && code < 300

/-- Result classification of `ParseFromFile`: the file-open error
passed through, or the parse outcome. -/
inductive FileParseError (ε : Type) where
  | openErr : FileParseError ε
  | parseErr (e : ParseError ε) : FileParseError ε
deriving DecidableEq

/-- Result classification of `ParseFromSite`: the retrieval failure, or
the parse outcome. -/
inductive SiteParseError (ε : Type) where
  | fetchErr (g : GetError) : SiteParseError ε
  | parseErr (e : ParseError ε) : SiteParseError ε
deriving DecidableEq

/-- Go `ParseFromFile`: open the file (`none` = open error, returned
verbatim, nothing acquired), then `defer Close()` and delegate to
`Parse`.  The second component counts releases of the opened file. -/
def ParseFromFile {σ ε : Type} (file : Option (List Token × Bool))
    (consume : σ → sitemapEntry → σ × Option ε) (s₀ : σ) :
    (σ × Nat × Except (FileParseError ε) Unit) × Nat :=
  match file with
  | none => ((s₀, 0, Except.error FileParseError.openErr), 0)
  | some (ts, tr) =>
    let out := Parse consume s₀ ts tr
    ((out.1, out.2.1, out.2.2.mapError FileParseError.parseErr), 1)

/-- Go `ParseFromSite`: run `get` (failure returned verbatim, nothing
acquired), then `defer body.Close()` and delegate to `Parse`.  The
second component counts releases of the acquired body. -/
def ParseFromSite {σ ε : Type} (gunzip : List Token × Bool → Option (List Token × Bool))
    (url : String) (res : Option (HttpResponse (List Token × Bool)))
    (consume : σ → sitemapEntry → σ × Option ε) (s₀ : σ) :
    (σ × Nat × Except (SiteParseError ε) Unit) × Nat :=
  match sitemap.get gunzip url res with
  | Except.error g => ((s₀, 0, Except.error (SiteParseError.fetchErr g)), 0)
  | Except.ok (ts, tr) =>
    let out := Parse consume s₀ ts tr
    ((out.1, out.2.1, out.2.2.mapError SiteParseError.parseErr), 1)

/-- Go `ParseIndexFromFile`: like `ParseFromFile` with `ParseIndex`. -/
def ParseIndexFromFile {σ ε : Type} (file : Option (List Token × Bool))
    (consume : σ → sitemapIndexEntry → σ × Option ε) (s₀ : σ) :
    (σ × Nat × Except (FileParseError ε) Unit) × Nat :=
  match file with
  | none => ((s₀, 0, Except.error FileParseError.openErr), 0)
  | some (ts, tr) =>
    let out := ParseIndex consume s₀ ts tr
    ((out.1, out.2.1, out.2.2.mapError FileParseError.parseErr), 1)

/-- Go `ParseIndexFromSite`: like `ParseFromSite` with `ParseIndex`. -/
def ParseIndexFromSite {σ ε : Type} (gunzip : List Token × Bool → Option (List Token × Bool))
    (url : String) (res : Option (HttpResponse (List Token × Bool)))
    (consume : σ → sitemapIndexEntry → σ × Option ε) (s₀ : σ) :
    (σ × Nat × Except (SiteParseError ε) Unit) × Nat :=
  match sitemap.get gunzip url res with
  | Except.error g => ((s₀, 0, Except.error (SiteParseError.fetchErr g)), 0)
  | Except.ok (ts, tr) =>
    let out := ParseIndex consume s₀ ts tr
    ((out.1, out.2.1, out.2.2.mapError SiteParseError.parseErr), 1)

/-! ## Step lemmas for the entry builder -/

theorem buildEntry_en (e : sitemapEntry) (a : String) (rest : List Token) :
    buildEntry e (Token.en a :: rest) = some (e, rest) := by
  simp [buildEntry]

theorem buildEntry_txt (e : sitemapEntry) (a : String) (rest : List Token) :
    buildEntry e (Token.txt a :: rest) = buildEntry e rest := by
  simp [buildEntry]

theorem buildEntry_loc (e : sitemapEntry) (rest : List Token) (s : String)
    (r : List Token) (h : readText rest 0 "" = some (s, r)) :
    buildEntry e (Token.st "loc" :: rest) = buildEntry { e with Location := s } r := by
  simp only [buildEntry, String.reduceEq, reduceIte]
  split
  · rename_i heq
    rw [h] at heq
    cases heq
  · rename_i s' r' heq
    rw [h] at heq
    simp only [Option.some.injEq, Prod.mk.injEq] at heq
    obtain ⟨h1, h2⟩ := heq
    subst h1
    subst h2
    rfl

theorem buildEntry_lastmod (e : sitemapEntry) (rest : List Token) (s : String)
    (r : List Token) (h : readText rest 0 "" = some (s, r)) :
    buildEntry e (Token.st "lastmod" :: rest) = buildEntry { e with LastModified := s } r := by
  simp only [buildEntry, String.reduceEq, reduceIte]
  split
  · rename_i heq
    rw [h] at heq
    cases heq
  · rename_i s' r' heq
    rw [h] at heq
    simp only [Option.some.injEq, Prod.mk.injEq] at heq
    obtain ⟨h1, h2⟩ := heq
    subst h1
    subst h2
    rfl

theorem buildEntry_changefreq (e : sitemapEntry) (rest : List Token) (s : String)
    (r : List Token) (h : readText rest 0 "" = some (s, r)) :
    buildEntry e (Token.st "changefreq" :: rest) =
      buildEntry { e with ChangeFrequency := s } r := by
  simp only [buildEntry, String.reduceEq, reduceIte]
  split
  · rename_i heq
    rw [h] at heq
    cases heq
  · rename_i s' r' heq
    rw [h] at heq
    simp only [Option.some.injEq, Prod.mk.injEq] at heq
    obtain ⟨h1, h2⟩ := heq
    subst h1
    subst h2
    rfl

theorem buildEntry_priority (e : sitemapEntry) (rest : List Token) (s : String)
    (r : List Token) (h : readText rest 0 "" = some (s, r)) :
    buildEntry e (Token.st "priority" :: rest) = buildEntry (setPriority e s) r := by
  simp only [buildEntry, String.reduceEq, reduceIte]
  split
  · rename_i heq
    rw [h] at heq
    cases heq
  · rename_i s' r' heq
    rw [h] at heq
    simp only [Option.some.injEq, Prod.mk.injEq] at heq
    obtain ⟨h1, h2⟩ := heq
    subst h1
    subst h2
    rfl

/-! ## Generic corollaries of the master lemma -/

section LoopCorollaries

variable {ρ σ ε : Type} (tag : String)
variable (build : List Token → Option (ρ × List Token))
variable (hb : ∀ ts x r, build ts = some (x, r) → r.length < ts.length)
variable (consume : σ → ρ → σ × Option ε)

/-- If the consumer stops on the record after `rs₁`, the loop returns
exactly that failure value and has invoked the consumer once per
preceding record plus once for the stopping record. -/
theorem loop_consumer_stop (ts : List Token) (rs rs₁ rs₂ : List ρ) (x : ρ)
    (s₀ s₁ s₂ : σ) (n₁ : Nat) (er : ε) (tr : Bool)
    (hscan : scanRecords tag build hb ts = (rs, true))
    (hsplit : rs = rs₁ ++ x :: rs₂)
    (hpre : runRecords consume false s₀ 0 rs₁ = (s₁, n₁, Except.ok ()))
    (hstop : consume s₁ x = (s₂, some er)) :
    parseLoop tag build hb consume ts tr s₀ 0 =
      (s₂, n₁ + 1, Except.error (ParseError.consumer er)) ∧ n₁ = rs₁.length := by
  have h1 := parseLoop_eq_scan tag build hb consume ts tr s₀ 0
  have e1 : (scanRecords tag build hb ts).1 = rs := by rw [hscan]
  have e2 : (scanRecords tag build hb ts).2 = true := by rw [hscan]
  rw [e1, e2] at h1
  subst hsplit
  rw [runRecords_append] at h1
  rw [hpre] at h1
  simp only [runRecords, hstop] at h1
  refine ⟨h1, ?_⟩
  have := runRecords_ok_count consume false rs₁ s₀ 0 s₁ n₁ hpre
  omega

/-- On a malformed stream (truncated tokenizer or failed record build)
the loop interacts with the consumer exactly as the fold over the
records scanned before the failure point and, unless the consumer stops
first, ends in a structural failure after exactly one invocation per
such record. -/
theorem loop_malformed (ts : List Token) (rs : List ρ) (clean : Bool)
    (s₀ : σ) (tr : Bool)
    (hscan : scanRecords tag build hb ts = (rs, clean))
    (hbad : tr = true ∨ clean = false) :
    parseLoop tag build hb consume ts tr s₀ 0 = runRecords consume true s₀ 0 rs ∧
    ((∀ s x, (consume s x).2 = none) →
      ∃ s', parseLoop tag build hb consume ts tr s₀ 0 =
        (s', rs.length, Except.error ParseError.malformed)) := by
  have h1 := parseLoop_eq_scan tag build hb consume ts tr s₀ 0
  have e1 : (scanRecords tag build hb ts).1 = rs := by rw [hscan]
  have e2 : (scanRecords tag build hb ts).2 = clean := by rw [hscan]
  rw [e1, e2] at h1
  have hflag : (tr || !clean) = true := by
    cases hbad with
    | inl h => simp [h]
    | inr h => simp [h]
  rw [hflag] at h1
  refine ⟨h1, ?_⟩
  intro hc
  obtain ⟨s', h2⟩ := runRecords_all_none consume hc true rs s₀ 0
  refine ⟨s', ?_⟩
  rw [h1, h2]
  simp

/-- On a clean scan with a never-stopping consumer, the loop succeeds
after exactly one invocation per scanned record. -/
theorem loop_clean_all (ts : List Token) (rs : List ρ) (s₀ : σ)
    (hscan : scanRecords tag build hb ts = (rs, true))
    (hc : ∀ s x, (consume s x).2 = none) :
    ∃ s', parseLoop tag build hb consume ts false s₀ 0 =
      (s', rs.length, Except.ok ()) := by
  have h1 := parseLoop_eq_scan tag build hb consume ts false s₀ 0
  have e1 : (scanRecords tag build hb ts).1 = rs := by rw [hscan]
  have e2 : (scanRecords tag build hb ts).2 = true := by rw [hscan]
  rw [e1, e2] at h1
  simp only [Bool.not_true, Bool.or_false] at h1
  obtain ⟨s', h2⟩ := runRecords_all_none consume hc false rs s₀ 0
  refine ⟨s', ?_⟩
  rw [h1, h2]
  simp

end LoopCorollaries

/-! ## Claims -/

/-- Claim C5: the date parser tries full date-time-with-offset first,
then date-time with hour-minute precision and offset, then date-only at
midnight with no offset; the first matching format wins; if none match
the result is absent (not an error); an empty input yields absent
immediately; in particular `"2015-05-07"` parses to
2015-05-07T00:00:00 with no offset. -/
theorem claim5 :
    parseDateTime "" = none ∧
    (∀ v t, parseRFC3339 v = some t → parseDateTime v = some t) ∧
    (∀ v t, parseRFC3339 v = none → parseNoSecFormat v = some t →
      parseDateTime v = some t) ∧
    (∀ v, parseRFC3339 v = none → parseNoSecFormat v = none →
      parseShortDate v = none → parseDateTime v = none) ∧
    parseDateTime "2015-05-07" = some ⟨2015, 5, 7, 0, 0, 0, 0⟩ := by
  refine ⟨by decide, ?_, ?_, ?_, by decide⟩
  · intro v t h
    by_cases hv : v = ""
    · subst hv
      have hn : parseRFC3339 "" = none := by decide
      rw [hn] at h
      cases h
    · simp [parseDateTime, hv, h]
  · intro v t h1 h2
    by_cases hv : v = ""
    · subst hv
      have hn : parseNoSecFormat "" = none := by decide
      rw [hn] at h2
      cases h2
    · simp [parseDateTime, hv, h1, h2]
  · intro v h1 h2 h3
    by_cases hv : v = ""
    · subst hv
      decide
    · simp [parseDateTime, hv, h1, h2, h3]

/-- Witness for C5 at concrete inputs for each format tier and for the
no-match tier. -/
theorem claim5_witness :
    parseDateTime "2015-05-07T15:04:05Z" = some ⟨2015, 5, 7, 15, 4, 5, 0⟩ ∧
    parseDateTime "2015-05-07T15:04-07:00" = some ⟨2015, 5, 7, 15, 4, 0, -420⟩ ∧
    parseDateTime "not-a-date" = none :=
  ⟨claim5.2.1 _ _ (by decide),
   claim5.2.2.1 _ _ (by decide) (by decide),
   claim5.2.2.2.1 _ (by decide) (by decide) (by decide)⟩

/-- Claim C6: calling the last-modified accessor twice on the same
record returns equal values both times; the raw string is parsed on
first access and, when it parses, the value is cached on the record. -/
theorem claim6 (e : sitemapEntry) :
    (e.GetLastModified).1 = ((e.GetLastModified).2.GetLastModified).1 ∧
    (∀ t, e.ParsedLastModified = none → parseDateTime e.LastModified = some t →
      (e.GetLastModified).1 = some t ∧
      (e.GetLastModified).2.ParsedLastModified = some t) := by
  constructor
  · by_cases h1 : e.ParsedLastModified = none
    · by_cases h2 : e.LastModified = ""
      · simp [sitemapEntry.GetLastModified, h1, h2]
      · cases hp : parseDateTime e.LastModified with
        | none => simp [sitemapEntry.GetLastModified, h1, h2, hp]
        | some t => simp [sitemapEntry.GetLastModified, h1, h2, hp]
    · simp [sitemapEntry.GetLastModified, h1]
  · intro t h1 h2
    have hne : ¬e.LastModified = "" := by
      intro hx
      rw [hx] at h2
      have hn : parseDateTime "" = none := by decide
      rw [hn] at h2
      cases h2
    constructor
    · simp [sitemapEntry.GetLastModified, h1, hne, h2]
    · simp [sitemapEntry.GetLastModified, h1, hne, h2]

/-- Witness for C6: a record carrying raw date `"2015-05-07"`. -/
theorem claim6_witness :
    ((⟨"https://example.com/", "2015-05-07", none, "always", 1/2, [], none⟩ :
        sitemapEntry).GetLastModified).1 =
      ((((⟨"https://example.com/", "2015-05-07", none, "always", 1/2, [], none⟩ :
        sitemapEntry).GetLastModified).2).GetLastModified).1 ∧
    ((⟨"https://example.com/", "2015-05-07", none, "always", 1/2, [], none⟩ :
        sitemapEntry).GetLastModified).2.ParsedLastModified =
      some ⟨2015, 5, 7, 0, 0, 0, 0⟩ :=
  ⟨(claim6 _).1, ((claim6 _).2 _ rfl (by decide)).2⟩

/-- Claim C10: a non-empty raw date that matches no format yields
absent on every accessor call, the failed result is never cached (the
record is left unchanged, so the parse is re-attempted on each call),
and repeated calls agree; likewise for `News.GetPublicationDate`. -/
theorem claim10 :
    (∀ e : sitemapEntry, e.ParsedLastModified = none → e.LastModified ≠ "" →
      parseDateTime e.LastModified = none →
      (e.GetLastModified).1 = none ∧ (e.GetLastModified).2 = e) ∧
    (∀ nw : News, nw.ParsedPublicationDate = none → nw.PublicationDate ≠ "" →
      parseDateTime nw.PublicationDate = none →
      (nw.GetPublicationDate).1 = none ∧ (nw.GetPublicationDate).2 = nw) := by
  constructor
  · intro e h1 h2 h3
    constructor
    · simp [sitemapEntry.GetLastModified, h1, h2, h3]
    · simp only [sitemapEntry.GetLastModified, h1, h2, h3, ne_eq,
        not_false_eq_true, and_true, if_pos]
      rw [← h1]
  · intro nw h1 h2 h3
    constructor
    · simp [News.GetPublicationDate, h1, h2, h3]
    · simp only [News.GetPublicationDate, h1, h2, h3, ne_eq,
        not_false_eq_true, and_true, if_pos]
      rw [← h1]

/-- Witness for C10: entry and news records carrying `"not-a-date"`. -/
theorem claim10_witness :
    ((⟨"https://example.com/", "not-a-date", none, "always", 1/2, [], none⟩ :
        sitemapEntry).GetLastModified).1 = none ∧
    ((⟨"https://example.com/", "not-a-date", none, "always", 1/2, [], none⟩ :
        sitemapEntry).GetLastModified).2 =
      ⟨"https://example.com/", "not-a-date", none, "always", 1/2, [], none⟩ ∧
    ((⟨⟨"pub", "en"⟩, "not-a-date", none, "title", "kw"⟩ :
        News).GetPublicationDate).1 = none :=
  ⟨(claim10.1 _ rfl (by decide) (by decide)).1,
   (claim10.1 _ rfl (by decide) (by decide)).2,
   (claim10.2 _ rfl (by decide) (by decide)).1⟩

/-- Claim C4: a `url` element without a `changefreq` child finalizes to
a record whose accessor returns `"always"`; without a `priority` child,
priority 0.5. -/
theorem claim4 (ts : List Token) (x : sitemapEntry) (r : List Token)
    (hp : buildEntry newSitemapEntry ts = some (x, r)) :
    ("changefreq" ∉ childNames ts → x.GetChangeFrequency = Always) ∧
    ("priority" ∉ childNames ts → x.GetPriority = 1/2) := by
  have h := buildEntry_preserve newSitemapEntry ts x r hp
  exact ⟨fun hn => h.1 hn, fun hn => h.2 hn⟩

/-- Witness for C4: a `url` element carrying only a `loc` child. -/
theorem claim4_witness :
    ({ newSitemapEntry with Location := "https://example.com/" } :
      sitemapEntry).GetChangeFrequency = Always ∧
    ({ newSitemapEntry with Location := "https://example.com/" } :
      sitemapEntry).GetPriority = 1/2 := by
  have hrt : readText [Token.txt "https://example.com/", Token.en "loc",
      Token.en "url"] 0 "" = some ("https://example.com/", [Token.en "url"]) := by
    decide
  have hb : buildEntry newSitemapEntry [Token.st "loc",
      Token.txt "https://example.com/", Token.en "loc", Token.en "url"] =
      some ({ newSitemapEntry with Location := "https://example.com/" }, []) := by
    rw [buildEntry_loc newSitemapEntry _ _ _ hrt, buildEntry_en]
  have hdr : drain [Token.txt "https://example.com/", Token.en "loc",
      Token.en "url"] 0 = some [Token.en "url"] := by decide
  have hcn : childNames [Token.st "loc", Token.txt "https://example.com/",
      Token.en "loc", Token.en "url"] = ["loc"] := by
    rw [childNames_st_some _ _ _ hdr, childNames_en]
  have h := claim4 _ _ _ hb
  exact ⟨h.1 (by rw [hcn]; decide), h.2 (by rw [hcn]; decide)⟩

/-- Claim C7: values are passed through as given: the accessors return
the stored fields verbatim; a parseable `priority` text is stored
without range clamping; a `changefreq` string is stored without
validation; a `url` element with no `loc` child still yields a record,
with empty location, handed to the consumer as-is. -/
theorem claim7 :
    (∀ e : sitemapEntry, e.GetPriority = e.Priority ∧
      e.GetChangeFrequency = e.ChangeFrequency ∧ e.GetLocation = e.Location) ∧
    (∀ s p, parsePriority s = some p →
      urlScan [Token.st "url", Token.st "priority", Token.txt s,
        Token.en "priority", Token.en "url"] =
        ([{ newSitemapEntry with Priority := p }], true)) ∧
    (∀ s, urlScan [Token.st "url", Token.st "changefreq", Token.txt s,
        Token.en "changefreq", Token.en "url"] =
        ([{ newSitemapEntry with ChangeFrequency := s }], true)) ∧
    (∀ (σ ε : Type) (consume : σ → sitemapEntry → σ × Option ε) (s₀ : σ),
      Parse consume s₀ [Token.st "url", Token.en "url"] false =
        runRecords consume false s₀ 0 [newSitemapEntry]) ∧
    newSitemapEntry.GetLocation = "" := by
  refine ⟨fun e => ⟨rfl, rfl, rfl⟩, ?_, ?_, ?_, rfl⟩
  · intro s p hps
    have hrt : readText [Token.txt s, Token.en "priority", Token.en "url"] 0 "" =
        some (s, [Token.en "url"]) := by simp [readText]
    have hsp : setPriority newSitemapEntry s =
        { newSitemapEntry with Priority := p } := by simp [setPriority, hps]
    have hb : buildEntry newSitemapEntry [Token.st "priority", Token.txt s,
        Token.en "priority", Token.en "url"] =
        some ({ newSitemapEntry with Priority := p }, []) := by
      rw [buildEntry_priority _ _ _ _ hrt, hsp, buildEntry_en]
    rw [urlScan, scanRecords_st_some "url" (buildEntry newSitemapEntry)
      buildEntryStep "url" _ _ _ rfl hb, scanRecords_nil]
  · intro s
    have hrt : readText [Token.txt s, Token.en "changefreq", Token.en "url"] 0 "" =
        some (s, [Token.en "url"]) := by simp [readText]
    have hb : buildEntry newSitemapEntry [Token.st "changefreq", Token.txt s,
        Token.en "changefreq", Token.en "url"] =
        some ({ newSitemapEntry with ChangeFrequency := s }, []) := by
      rw [buildEntry_changefreq _ _ _ _ hrt, buildEntry_en]
    rw [urlScan, scanRecords_st_some "url" (buildEntry newSitemapEntry)
      buildEntryStep "url" _ _ _ rfl hb, scanRecords_nil]
  · intro σ ε consume s₀
    have hb : buildEntry newSitemapEntry [Token.en "url"] =
        some (newSitemapEntry, []) := buildEntry_en newSitemapEntry "url" []
    have h1 := parseLoop_eq_scan "url" (buildEntry newSitemapEntry)
      buildEntryStep consume [Token.st "url", Token.en "url"] false s₀ 0
    rw [scanRecords_st_some "url" (buildEntry newSitemapEntry)
      buildEntryStep "url" _ _ _ rfl hb, scanRecords_nil] at h1
    simpa [Parse] using h1

/-- Witness for C7: the out-of-range priority `5.5` and the
non-canonical change frequency `"sometimes"` are delivered verbatim. -/
theorem claim7_witness :
    parsePriority "5.5" = some (11/2) ∧
    urlScan [Token.st "url", Token.st "priority", Token.txt "5.5",
      Token.en "priority", Token.en "url"] =
      ([{ newSitemapEntry with Priority := 11/2 }], true) ∧
    urlScan [Token.st "url", Token.st "changefreq", Token.txt "sometimes",
      Token.en "changefreq", Token.en "url"] =
      ([{ newSitemapEntry with ChangeFrequency := "sometimes" }], true) :=
  ⟨by simp +decide [parsePriority, readDigits, charDigit]; norm_num,
   claim7.2.1 "5.5" (11/2)
     (by simp +decide [parsePriority, readDigits, charDigit]; norm_num),
   claim7.2.2.1 "sometimes"⟩

/-- Claim C1: for a well-formed document, the consumer is invoked
exactly once per `url` element, in document order (the run equals the
left-to-right fold over the scanned records), and the invocation count
equals the number of `url` elements regardless of unrelated sibling or
wrapper elements. -/
theorem claim1 {σ ε : Type} (consume : σ → sitemapEntry → σ × Option ε) (s₀ : σ)
    (ts : List Token) (es : List sitemapEntry)
    (hscan : urlScan ts = (es, true)) :
    Parse consume s₀ ts false = runRecords consume false s₀ 0 es ∧
    es.length = countTags "url" ts ∧
    ((∀ s x, (consume s x).2 = none) →
      ∃ s', Parse consume s₀ ts false = (s', countTags "url" ts, Except.ok ())) := by
  have hscan' : scanRecords "url" (buildEntry newSitemapEntry) buildEntryStep ts =
      (es, true) := hscan
  have hcount := scanRecords_clean_count "url" (buildEntry newSitemapEntry)
    buildEntryStep (fun us x r h => buildEntry_drain newSitemapEntry us x r h)
    ts.length ts (Nat.le_refl _) es hscan'
  refine ⟨?_, hcount, ?_⟩
  · have h1 := parseLoop_eq_scan "url" (buildEntry newSitemapEntry) buildEntryStep
      consume ts false s₀ 0
    have e1 : (scanRecords "url" (buildEntry newSitemapEntry) buildEntryStep ts).1 =
        es := by rw [hscan']
    have e2 : (scanRecords "url" (buildEntry newSitemapEntry) buildEntryStep ts).2 =
        true := by rw [hscan']
    rw [e1, e2] at h1
    simpa [Parse] using h1
  · intro hc
    obtain ⟨s', h2⟩ := loop_clean_all "url" (buildEntry newSitemapEntry)
      buildEntryStep consume ts es s₀ hscan' hc
    refine ⟨s', ?_⟩
    rw [← hcount]
    exact h2

/-- Witness for C1: a document with a wrapper element, stray text and
an unrelated sibling around two `url` elements; a counting consumer is
invoked exactly twice. -/
theorem claim1_witness :
    Parse (fun (n : Nat) (_ : sitemapEntry) => (n + 1, (none : Option Unit))) 0
      [Token.st "urlset", Token.txt "c", Token.st "url", Token.en "url",
       Token.st "junk", Token.txt "x", Token.en "junk", Token.st "url",
       Token.en "url", Token.en "urlset"] false = (2, 2, Except.ok ()) ∧
    countTags "url"
      [Token.st "urlset", Token.txt "c", Token.st "url", Token.en "url",
       Token.st "junk", Token.txt "x", Token.en "junk", Token.st "url",
       Token.en "url", Token.en "urlset"] = 2 := by
  have hscan : urlScan
      [Token.st "urlset", Token.txt "c", Token.st "url", Token.en "url",
       Token.st "junk", Token.txt "x", Token.en "junk", Token.st "url",
       Token.en "url", Token.en "urlset"] = ([newSitemapEntry, newSitemapEntry], true) := by
    rw [urlScan,
      scanRecords_st_ne _ _ _ "urlset" _ (by decide),
      scanRecords_txt,
      scanRecords_st_some _ _ _ "url" _ _ _ rfl (buildEntry_en newSitemapEntry "url" _),
      scanRecords_st_ne _ _ _ "junk" _ (by decide),
      scanRecords_txt,
      scanRecords_en,
      scanRecords_st_some _ _ _ "url" _ _ _ rfl (buildEntry_en newSitemapEntry "url" _),
      scanRecords_en,
      scanRecords_nil]
  have h := claim1 (fun (n : Nat) (_ : sitemapEntry) => (n + 1, (none : Option Unit)))
    0 _ _ hscan
  constructor
  · rw [h.1]
    simp [runRecords]
  · rw [← h.2.1]
    rfl

/-- Claim C2: if the consumer returns a failure on the record following
a cleanly consumed prefix, the operation performs exactly that many
invocations plus one, stops, and returns the consumer's exact failure
value unwrapped — for `Parse` and `ParseIndex` alike. -/
theorem claim2 :
    (∀ (σ ε : Type) (consume : σ → sitemapEntry → σ × Option ε) (s₀ : σ)
       (ts : List Token) (es es₁ es₂ : List sitemapEntry) (e : sitemapEntry)
       (s₁ s₂ : σ) (n₁ : Nat) (er : ε) (tr : Bool),
       urlScan ts = (es, true) → es = es₁ ++ e :: es₂ →
       runRecords consume false s₀ 0 es₁ = (s₁, n₁, Except.ok ()) →
       consume s₁ e = (s₂, some er) →
       Parse consume s₀ ts tr = (s₂, n₁ + 1, Except.error (ParseError.consumer er)) ∧
         n₁ = es₁.length) ∧
    (∀ (σ ε : Type) (consume : σ → sitemapIndexEntry → σ × Option ε) (s₀ : σ)
       (ts : List Token) (es es₁ es₂ : List sitemapIndexEntry) (e : sitemapIndexEntry)
       (s₁ s₂ : σ) (n₁ : Nat) (er : ε) (tr : Bool),
       indexScan ts = (es, true) → es = es₁ ++ e :: es₂ →
       runRecords consume false s₀ 0 es₁ = (s₁, n₁, Except.ok ()) →
       consume s₁ e = (s₂, some er) →
       ParseIndex consume s₀ ts tr = (s₂, n₁ + 1, Except.error (ParseError.consumer er)) ∧
         n₁ = es₁.length) := by
  constructor
  · intro σ ε consume s₀ ts es es₁ es₂ e s₁ s₂ n₁ er tr hscan hsplit hpre hstop
    exact loop_consumer_stop "url" (buildEntry newSitemapEntry) buildEntryStep
      consume ts es es₁ es₂ e s₀ s₁ s₂ n₁ er tr hscan hsplit hpre hstop
  · intro σ ε consume s₀ ts es es₁ es₂ e s₁ s₂ n₁ er tr hscan hsplit hpre hstop
    exact loop_consumer_stop "sitemap" (buildIndexEntry newSitemapIndexEntry)
      buildIndexEntryStep consume ts es es₁ es₂ e s₀ s₁ s₂ n₁ er tr hscan hsplit
      hpre hstop

/-- Witness for C2: a consumer that stops on the first of two records;
one invocation occurs and the exact stop value comes back. -/
theorem claim2_witness :
    Parse (fun (_ : Unit) (_ : sitemapEntry) => ((), some "stop")) ()
      [Token.st "url", Token.en "url", Token.st "url", Token.en "url"] false =
      ((), 1, Except.error (ParseError.consumer "stop")) := by
  have hscan : urlScan [Token.st "url", Token.en "url", Token.st "url", Token.en "url"] =
      ([newSitemapEntry, newSitemapEntry], true) := by
    rw [urlScan,
      scanRecords_st_some _ _ _ "url" _ _ _ rfl (buildEntry_en newSitemapEntry "url" _),
      scanRecords_st_some _ _ _ "url" _ _ _ rfl (buildEntry_en newSitemapEntry "url" _),
      scanRecords_nil]
  have h := (claim2.1 Unit String (fun _ _ => ((), some "stop")) () _ _ []
    [newSitemapEntry] newSitemapEntry () () 0 "stop" false hscan rfl
    (by simp [runRecords]) rfl).1
  simpa using h

/-- Claim C3: on malformed input (tokenizer failure after the listed
tokens, or a record subtree cut off by the failure) `Parse` and
`ParseIndex` return a structural decode failure, the consumer having
been invoked exactly once for each record fully parsed before the
malformation and never for the partial record. -/
theorem claim3 :
    (∀ (σ ε : Type) (consume : σ → sitemapEntry → σ × Option ε) (s₀ : σ)
       (ts : List Token) (es : List sitemapEntry) (clean tr : Bool),
       urlScan ts = (es, clean) → tr = true ∨ clean = false →
       Parse consume s₀ ts tr = runRecords consume true s₀ 0 es ∧
       ((∀ s x, (consume s x).2 = none) →
         ∃ s', Parse consume s₀ ts tr = (s', es.length, Except.error ParseError.malformed))) ∧
    (∀ (σ ε : Type) (consume : σ → sitemapIndexEntry → σ × Option ε) (s₀ : σ)
       (ts : List Token) (es : List sitemapIndexEntry) (clean tr : Bool),
       indexScan ts = (es, clean) → tr = true ∨ clean = false →
       ParseIndex consume s₀ ts tr = runRecords consume true s₀ 0 es ∧
       ((∀ s x, (consume s x).2 = none) →
         ∃ s', ParseIndex consume s₀ ts tr = (s', es.length, Except.error ParseError.malformed))) := by
  constructor
  · intro σ ε consume s₀ ts es clean tr hscan hbad
    exact loop_malformed "url" (buildEntry newSitemapEntry) buildEntryStep consume
      ts es clean s₀ tr hscan hbad
  · intro σ ε consume s₀ ts es clean tr hscan hbad
    exact loop_malformed "sitemap" (buildIndexEntry newSitemapIndexEntry)
      buildIndexEntryStep consume ts es clean s₀ tr hscan hbad

/-- Witness for C3: a document whose second `url` element is cut off by
the malformation; the counting consumer runs once (for the record fully
parsed before the failure) and the operation fails structurally. -/
theorem claim3_witness :
    Parse (fun (n : Nat) (_ : sitemapEntry) => (n + 1, (none : Option Unit))) 0
      [Token.st "urlset", Token.st "url", Token.en "url", Token.st "url"] false =
      (1, 1, Except.error ParseError.malformed) := by
  have hnone : buildEntry newSitemapEntry ([] : List Token) = none := by
    simp [buildEntry]
  have hscan : urlScan [Token.st "urlset", Token.st "url", Token.en "url",
      Token.st "url"] = ([newSitemapEntry], false) := by
    rw [urlScan,
      scanRecords_st_ne _ _ _ "urlset" _ (by decide),
      scanRecords_st_some _ _ _ "url" _ _ _ rfl (buildEntry_en newSitemapEntry "url" _),
      scanRecords_st_none _ _ _ "url" _ rfl hnone]
  have h := (claim3.1 Nat Unit (fun n _ => (n + 1, none)) 0 _ _ false false
    hscan (Or.inr rfl)).1
  rw [h]
  simp [runRecords]

/-- Claim C8: each wrapper releases the byte source it acquired exactly
once, whatever the outcome of the delegated parse (normal completion,
consumer stop, or structural failure — the forwarded result is exactly
the parse outcome), and releases nothing when acquisition failed. -/
theorem claim8 :
    (∀ (σ ε : Type) (ts : List Token) (tr : Bool)
       (consume : σ → sitemapEntry → σ × Option ε) (s₀ : σ),
       (ParseFromFile (some (ts, tr)) consume s₀).2 = 1 ∧
       (ParseFromFile (some (ts, tr)) consume s₀).1 =
         ((Parse consume s₀ ts tr).1, (Parse consume s₀ ts tr).2.1,
          (Parse consume s₀ ts tr).2.2.mapError FileParseError.parseErr) ∧
       (ParseFromFile (none : Option (List Token × Bool)) consume s₀).2 = 0) ∧
    (∀ (σ ε : Type) (ts : List Token) (tr : Bool)
       (consume : σ → sitemapIndexEntry → σ × Option ε) (s₀ : σ),
       (ParseIndexFromFile (some (ts, tr)) consume s₀).2 = 1 ∧
       (ParseIndexFromFile (none : Option (List Token × Bool)) consume s₀).2 = 0) ∧
    (∀ (σ ε : Type) (gunzip : List Token × Bool → Option (List Token × Bool))
       (url : String) (res : Option (HttpResponse (List Token × Bool)))
       (consume : σ → sitemapEntry → σ × Option ε) (s₀ : σ) (body : List Token × Bool),
       sitemap.get gunzip url res = Except.ok body →
       (ParseFromSite gunzip url res consume s₀).2 = 1) ∧
    (∀ (σ ε : Type) (gunzip : List Token × Bool → Option (List Token × Bool))
       (url : String) (res : Option (HttpResponse (List Token × Bool)))
       (consume : σ → sitemapIndexEntry → σ × Option ε) (s₀ : σ) (body : List Token × Bool),
       sitemap.get gunzip url res = Except.ok body →
       (ParseIndexFromSite gunzip url res consume s₀).2 = 1) := by
  refine ⟨?_, ?_, ?_, ?_⟩
  · intro σ ε ts tr consume s₀
    exact ⟨rfl, rfl, rfl⟩
  · intro σ ε ts tr consume s₀
    exact ⟨rfl, rfl⟩
  · intro σ ε gunzip url res consume s₀ body h
    obtain ⟨ts, tr⟩ := body
    simp [ParseFromSite, h]
  · intro σ ε gunzip url res consume s₀ body h
    obtain ⟨ts, tr⟩ := body
    simp [ParseIndexFromSite, h]

/-- Witness for C8: a concrete file parse and a concrete site parse,
each releasing its source exactly once. -/
theorem claim8_witness :
    (ParseFromFile (some ([Token.st "url", Token.en "url"], false))
      (fun (_ : Unit) (_ : sitemapEntry) => ((), (none : Option Unit))) ()).2 = 1 ∧
    (ParseFromSite (fun b => some b) "https://example.com/sitemap.xml"
      (some { statusCode := 200, contentEncoding := "",
              body := ([Token.st "url", Token.en "url"], false) })
      (fun (_ : Unit) (_ : sitemapEntry) => ((), (none : Option Unit))) ()).2 = 1 :=
  ⟨(claim8.1 Unit Unit [Token.st "url", Token.en "url"] false
      (fun _ _ => ((), none)) ()).1,
   claim8.2.2.1 Unit Unit (fun b => some b) "https://example.com/sitemap.xml"
     (some { statusCode := 200, contentEncoding := "",
             body := ([Token.st "url", Token.en "url"], false) })
     (fun _ _ => ((), none)) () ([Token.st "url", Token.en "url"], false) rfl⟩

/-- Counterexample to C9 as stated: HTTP 304 is not a success status
(it is not in the 2xx class), yet `get` does not fail on it — the body
is handed to the decode loop. -/
theorem claim9_counterexample :
    httpSuccess 304 = false ∧
    sitemap.get (fun (b : List Token × Bool) => some b) "https://example.com/sitemap.xml"
      (some { statusCode := 304, contentEncoding := "", body := ([], false) }) =
      Except.ok ([], false) := by
  constructor
  · rfl
  · rfl

/-- Claim C9 (amended): a response status of 400 or above causes the
retrieval to fail with an error carrying the status code and the target
URL, and the decode loop never sees such bytes; statuses below 400 are
handed over, transparently gzip-decompressed when the response declares
gzip content encoding. -/
theorem claim9 {β : Type} (gunzip : β → Option β) (url : String) (r : HttpResponse β) :
    (r.statusCode ≥ 400 → sitemap.get gunzip url (some r) =
      Except.error (GetError.statusError url r.statusCode)) ∧
    (r.statusCode < 400 → r.contentEncoding = "gzip" →
      ∀ b, gunzip r.body = some b → sitemap.get gunzip url (some r) = Except.ok b) ∧
    (r.statusCode < 400 → r.contentEncoding = "gzip" → gunzip r.body = none →
      sitemap.get gunzip url (some r) = Except.error GetError.gzipFail) ∧
    (r.statusCode < 400 → ¬r.contentEncoding = "gzip" →
      sitemap.get gunzip url (some r) = Except.ok r.body) := by
  refine ⟨?_, ?_, ?_, ?_⟩
  · intro h
    simp [sitemap.get, h]
  · intro h1 h2 b h3
    simp [sitemap.get, Nat.not_le.mpr h1, h2, h3]
  · intro h1 h2 h3
    simp [sitemap.get, Nat.not_le.mpr h1, h2, h3]
  · intro h1 h2
    simp [sitemap.get, Nat.not_le.mpr h1, h2]

/-- Witness for the amended C9: a 404 response fails carrying the URL
and the code; a 200 gzip response is decompressed before handover. -/
theorem claim9_witness :
    sitemap.get (fun (b : List Token × Bool) => some b) "https://example.com/s.xml"
      (some { statusCode := 404, contentEncoding := "", body := ([], false) }) =
      Except.error (GetError.statusError "https://example.com/s.xml" 404) ∧
    sitemap.get (fun (_ : List Token × Bool) => some ([Token.st "url"], true))
      "https://example.com/s.xml"
      (some { statusCode := 200, contentEncoding := "gzip", body := ([], false) }) =
      Except.ok ([Token.st "url"], true) :=
  ⟨(claim9 _ "https://example.com/s.xml" _).1 (by decide),
   (claim9 _ "https://example.com/s.xml" _).2.1 (by decide) rfl _ rfl⟩
